import Mathlib

/-
Verification of the NodeModal edit/merge/reconcile pipeline
(src/src/features/modals/NodeModal/index.tsx).

The component is shallowly embedded: JSON-like runtime values become the
inductive JValue, the JS builtins JSON.parse / JSON.stringify(v, null, 2) /
String(v) are modelled by executable functions, and the stateful React
component (document text, selected node, edit mode, edit buffer, pending
timeout, toast notifications) becomes an explicit state record with pure
transition functions translated line by line from the source.
-/

namespace NodeModal

/-- JSON-like runtime values.  Numbers are restricted to integers: the
component performs no arithmetic, and non-integer numerals are simply not
part of the model (the literal parser rejects them).  The constructor
undefined models the JavaScript value undefined, which can be assigned into a
document by the save handler when the buffer lacks the reserved key. -/
inductive JValue : Type where
  | null : JValue
  | undefined : JValue
  | bool : Bool → JValue
  | num : Int → JValue
  | str : String → JValue
  | arr : List JValue → JValue
  | obj : List (String × JValue) → JValue
deriving Repr, Inhabited, BEq

/-- Association-list lookup, first match wins.  JS objects keep keys
unique, and every object built below has unique keys. -/
def alLookup {α : Type} : List (String × α) → String → Option α
  | [], _ => none
  | (k', v) :: rest, k => if k' = k then some v else alLookup rest k

/-- Association-list update with JS object semantics: an existing key is
overwritten in place (keeping its position), a new key is appended. -/
def alSet {α : Type} : List (String × α) → String → α → List (String × α)
  | [], k, v => [(k, v)]
  | (k', v') :: rest, k, v =>
      if k' = k then (k', v) :: rest else (k', v') :: alSet rest k v

/-- Canonical array-index reading of a JS property key: a non-empty digit
string without a leading zero (or the single digit zero). -/
def toIndex (k : String) : Option Nat :=
  if k = "0" then some 0
  else if k ≠ "" ∧ k.data.all Char.isDigit ∧ k.data.head? ≠ some '0' then
    some (k.data.foldl (fun a c => a * 10 + (c.toNat - 48)) 0)
  else none

/-- Write into a list at index i, padding with null beyond the end
(a sparse JS array serializes its holes as null). -/
def arrSet (xs : List JValue) (i : Nat) (v : JValue) : List JValue :=
  if i < xs.length then xs.set i v
  else xs ++ List.replicate (i - xs.length) JValue.null ++ [v]

/-- Truncate or null-pad a list to the given length (JS array length
assignment). -/
def padTrunc (xs : List JValue) (n : Nat) : List JValue :=
  if n ≤ xs.length then xs.take n
  else xs ++ List.replicate (n - xs.length) JValue.null

/-- JS property read v[k], for values on which reading does not throw
(null and undefined are handled by the callers, which throw there).
Objects look keys up; arrays expose length and their canonical indices;
strings expose length and single-character reads; other primitives have
no own properties, so the read yields undefined (none). -/
def getMember (v : JValue) (k : String) : Option JValue :=
  match v with
  | .obj fs => alLookup fs k
  | .arr xs =>
      if k = "length" then some (.num xs.length)
      else
        match toIndex k with
        | some i => xs.get? i
        | none => none
  | .str s =>
      if k = "length" then some (.num s.length)
      else
        match toIndex k with
        | some i => (s.data.get? i).map (fun c => .str (String.mk [c]))
        | none => none
  | _ => none

/-- Strict-mode JS property assignment v[k] = x, returning the updated
value.  Assigning into null, undefined or a primitive throws (error).
Array index assignment extends the array; assigning a non-negative
integer to an array's length truncates or pads it; any other value
assigned to length throws (RangeError — numeric-string coercion is not
modelled, that corner is unreachable here because numeric strings are
parsed into numbers before assignment); any other string key on an array
becomes a non-index property that JSON.stringify ignores, modelled as a
no-op. -/
def jsAssign (v : JValue) (k : String) (x : JValue) : Except Unit JValue :=
  match v with
  | .obj fs => .ok (.obj (alSet fs k x))
  | .arr xs =>
      match toIndex k with
      | some i => .ok (.arr (arrSet xs i x))
      | none =>
          if k = "length" then
            match x with
            | .num n => if 0 ≤ n then .ok (.arr (padTrunc xs n.toNat)) else .error ()
            | _ => .error ()
          else .ok (.arr xs)
  | _ => .error ()

/-- The typeof v === 'object' && v !== null test of the source: true
exactly for objects and arrays. -/
def isObjLike (v : JValue) : Bool :=
  match v with
  | .obj _ => true
  | .arr _ => true
  | _ => false

/-- JSON whitespace. -/
def isWsChar (c : Char) : Bool :=
  c == ' ' || c == '\n' || c == '\t' || c == '\r'

/-- Drop leading JSON whitespace. -/
def skipWs : List Char → List Char
  | c :: rest => if isWsChar c then skipWs rest else c :: rest
  | [] => []

/-- Value of a hex digit, if any. -/
def hexVal (c : Char) : Option Nat :=
  if '0' ≤ c ∧ c ≤ '9' then some (c.toNat - 48)
  else if 'a' ≤ c ∧ c ≤ 'f' then some (c.toNat - 87)
  else if 'A' ≤ c ∧ c ≤ 'F' then some (c.toNat - 55)
  else none

/-- Body of a JSON string literal after the opening quote: consume
characters and escapes up to the closing quote.  Raw control characters
are rejected, as JSON.parse rejects them. -/
def parseStrBody : List Char → List Char → Option (String × List Char)
  | [], _ => none
  | '"' :: rest, acc => some (String.mk acc.reverse, rest)
  | '\\' :: rest, acc =>
      match rest with
      | 'n' :: r => parseStrBody r ('\n' :: acc)
      | 't' :: r => parseStrBody r ('\t' :: acc)
      | 'r' :: r => parseStrBody r ('\r' :: acc)
      | 'b' :: r => parseStrBody r (Char.ofNat 8 :: acc)
      | 'f' :: r => parseStrBody r (Char.ofNat 12 :: acc)
      | '/' :: r => parseStrBody r ('/' :: acc)
      | '\\' :: r => parseStrBody r ('\\' :: acc)
      | '"' :: r => parseStrBody r ('"' :: acc)
      | 'u' :: a :: b :: c :: d :: r =>
          match hexVal a, hexVal b, hexVal c, hexVal d with
          | some x, some y, some z, some w =>
              parseStrBody r (Char.ofNat (((x * 16 + y) * 16 + z) * 16 + w) :: acc)
          | _, _, _, _ => none
      | _ => none
  | c :: rest, acc =>
      if c.toNat < 32 then none else parseStrBody rest (c :: acc)

/-- JSON integer numeral: optional minus, then either a lone zero or a
nonzero-led digit run.  A following fraction or exponent is rejected
(non-integer numbers are outside the model). -/
def parseNum (cs : List Char) : Option (JValue × List Char) :=
  let signed : Bool × List Char :=
    match cs with
    | '-' :: r => (true, r)
    | _ => (false, cs)
  match signed with
  | (neg, cs1) =>
    match cs1 with
    | '0' :: rest =>
        (match rest with
         | c :: _ =>
             if c = '.' ∨ c = 'e' ∨ c = 'E' then none
             else some (.num 0, rest)
         | [] => some (.num 0, []))
    | c :: _ =>
        if c.isDigit then
          let digs := cs1.takeWhile Char.isDigit
          let rest := cs1.dropWhile Char.isDigit
          let n : Nat := digs.foldl (fun a d => a * 10 + (d.toNat - 48)) 0
          let v : JValue := .num (if neg then -(n : Int) else (n : Int))
          match rest with
          | r :: _ => if r = '.' ∨ r = 'e' ∨ r = 'E' then none else some (v, rest)
          | [] => some (v, [])
        else none
    | [] => none

mutual

/-- Recursive-descent JSON value parser (model of JSON.parse), with fuel
for termination.  Duplicate object keys keep the last value at the first
position, as in JS. -/
def parseVal : Nat → List Char → Option (JValue × List Char)
  | 0, _ => none
  | fuel + 1, cs =>
    match skipWs cs with
    | 'n' :: 'u' :: 'l' :: 'l' :: rest => some (.null, rest)
    | 't' :: 'r' :: 'u' :: 'e' :: rest => some (.bool true, rest)
    | 'f' :: 'a' :: 'l' :: 's' :: 'e' :: rest => some (.bool false, rest)
    | '"' :: rest =>
        (match parseStrBody rest [] with
         | some (s, rest') => some (.str s, rest')
         | none => none)
    | '[' :: rest =>
        (match skipWs rest with
         | ']' :: rest' => some (.arr [], rest')
         | other => parseElems fuel other [])
    | '{' :: rest =>
        (match skipWs rest with
         | '}' :: rest' => some (.obj [], rest')
         | other => parseMembers fuel other [])
    | c :: rest =>
        if c = '-' ∨ c.isDigit then parseNum (c :: rest) else none
    | [] => none

/-- Comma-separated array elements up to the closing bracket. -/
def parseElems : Nat → List Char → List JValue → Option (JValue × List Char)
  | 0, _, _ => none
  | fuel + 1, cs, acc =>
    match parseVal fuel cs with
    | some (v, rest) =>
        (match skipWs rest with
         | ',' :: rest' => parseElems fuel rest' (acc ++ [v])
         | ']' :: rest' => some (.arr (acc ++ [v]), rest')
         | _ => none)
    | none => none

/-- Comma-separated object members up to the closing brace. -/
def parseMembers : Nat → List Char → List (String × JValue) → Option (JValue × List Char)
  | 0, _, _ => none
  | fuel + 1, cs, acc =>
    match skipWs cs with
    | '"' :: rest =>
        (match parseStrBody rest [] with
         | some (k, rest') =>
             (match skipWs rest' with
              | ':' :: rest2 =>
                  (match parseVal fuel rest2 with
                   | some (v, rest3) =>
                       (match skipWs rest3 with
                        | ',' :: rest4 => parseMembers fuel rest4 (alSet acc k v)
                        | '}' :: rest4 => some (.obj (alSet acc k v), rest4)
                        | _ => none)
                   | none => none)
              | _ => none)
         | none => none)
    | _ => none

end

/-- Model of JSON.parse: parse one value, then require only whitespace to
remain.  Returns none where JSON.parse throws. -/
def parseJson (s : String) : Option JValue :=
  match parseVal (4 * s.length + 8) s.data with
  | some (v, rest) =>
      (match skipWs rest with
       | [] => some v
       | _ => none)
  | none => none

/-- Escape one character as inside a JSON string literal. -/
def escChar (c : Char) : String :=
  if c = '"' then "\\\""
  else if c = '\\' then "\\\\"
  else if c = '\n' then "\\n"
  else if c = '\r' then "\\r"
  else if c = '\t' then "\\t"
  else if c = Char.ofNat 8 then "\\b"
  else if c = Char.ofNat 12 then "\\f"
  else if c.toNat < 32 then
    let lo := c.toNat % 16
    let hi := c.toNat / 16
    let dig := fun n => String.mk [Char.ofNat (if n < 10 then 48 + n else 87 + n)]
    "\\u00" ++ dig hi ++ dig lo
  else String.mk [c]

/-- Quote a string as a JSON string literal. -/
def quoteJson (s : String) : String :=
  "\"" ++ String.join (s.data.map escChar) ++ "\""

/-- A run of spaces. -/
def spaces (n : Nat) : String :=
  String.mk (List.replicate n ' ')

mutual

/-- Model of JSON.stringify(v, null, 2) at indentation depth d (the depth
of the closing bracket).  Undefined members are dropped; an undefined
array element or top-level value prints as null (the element case matches
JS; a top-level undefined is unreachable from parsed documents). -/
def sVal : Nat → JValue → String
  | _, .null => "null"
  | _, .undefined => "null"
  | _, .bool true => "true"
  | _, .bool false => "false"
  | _, .num n => toString n
  | _, .str s => quoteJson s
  | d, .arr xs =>
      match sElems (d + 2) xs with
      | [] => "[]"
      | ls => "[\n" ++ String.intercalate ",\n" ls ++ "\n" ++ spaces d ++ "]"
  | d, .obj fs =>
      match sMembers (d + 2) fs with
      | [] => "{}"
      | ls => "\x7b\n" ++ String.intercalate ",\n" ls ++ "\n" ++ spaces d ++ "\x7d"

/-- Rendered lines for array elements. -/
def sElems : Nat → List JValue → List String
  | _, [] => []
  | d, x :: rest => (spaces d ++ sVal d x) :: sElems d rest

/-- Rendered lines for object members, dropping undefined values. -/
def sMembers : Nat → List (String × JValue) → List String
  | _, [] => []
  | d, (k, x) :: rest =>
      match x with
      | .undefined => sMembers d rest
      | _ => (spaces d ++ quoteJson k ++ ": " ++ sVal d x) :: sMembers d rest

end

/-- Model of JSON.stringify(fullJson, null, 2). -/
def stringify2 (v : JValue) : String :=
  sVal 0 v

mutual

/-- Model of the JS template-literal / String() conversion used by the
source for node values. -/
def jsToString : JValue → String
  | .null => "null"
  | .undefined => "undefined"
  | .bool true => "true"
  | .bool false => "false"
  | .num n => toString n
  | .str s => s
  | .arr xs => String.intercalate "," (jsJoinParts xs)
  | .obj _ => "[object Object]"

/-- Array.prototype.join parts: null and undefined elements join as the
empty string. -/
def jsJoinParts : List JValue → List String
  | [] => []
  | .null :: rest => "" :: jsJoinParts rest
  | .undefined :: rest => "" :: jsJoinParts rest
  | e :: rest => jsToString e :: jsJoinParts rest

end

/-- A JSON-path segment: an object key (string) or an array index
(number), as in NodeData path of the source. -/
inductive JSeg : Type where
  | str : String → JSeg
  | num : Nat → JSeg
deriving Repr, Inhabited, BEq, DecidableEq

/-- JS coercion of a path segment used as a property key. -/
def segToString : JSeg → String
  | .str s => s
  | .num n => toString n

/-- The type tag carried by a node row. -/
inductive RowType : Type where
  | string : RowType
  | number : RowType
  | boolean : RowType
  | null : RowType
  | array : RowType
  | object : RowType
deriving Repr, Inhabited, BEq, DecidableEq

/-- One row of a node's text: optional key, value, type tag. -/
structure Row : Type where
  key : Option String
  value : JValue
  ty : RowType
deriving Repr, Inhabited, BEq

/-- The selected node's data: stable identifier, json path, rows. -/
structure NodeData : Type where
  id : String
  path : List JSeg
  text : List Row
deriving Repr, Inhabited, BEq

/-- JS truthiness of row.key: an absent key and the empty-string key are
both falsy. -/
def keyTruthy : Option String → Bool
  | some s => s != ""
  | none => false

/-- Row eligibility test of the source loops: not array-typed, not
object-typed, and with a truthy key. -/
def eligRow (r : Row) : Bool :=
  r.ty != RowType.array && r.ty != RowType.object && keyTruthy r.key

/-- The single-keyless-row test used three times by the source:
rows.length === 1 && !rows[0].key. -/
def singleKeyless (text : List Row) : Bool :=
  match text with
  | [r] => !keyTruthy r.key
  | _ => false

/-- normalizeNodeData of the source: empty rows print as an empty object;
a single keyless row prints its bare value via a template literal;
otherwise the eligible rows (non-container type, truthy key) are
collected into an object and printed with JSON.stringify(obj, null, 2). -/
def normalizeNodeData (nodeRows : List Row) : String :=
  if nodeRows.isEmpty then "{}"
  else if singleKeyless nodeRows then jsToString (nodeRows.headD default).value
  else
    stringify2 (.obj (nodeRows.foldl
      (fun acc r => if eligRow r then alSet acc (r.key.getD "") r.value else acc)
      []))

/-- jsonPathToString of the source: the empty (or missing) path renders
as the root symbol; otherwise each segment is rendered (numbers bare,
strings wrapped in double quotes by a template literal, without escaping)
and the segments are joined into a bracketed address. -/
def jsonPathToString (path : List JSeg) : String :=
  match path with
  | [] => "$"
  | _ =>
      let segments := path.map (fun seg =>
        match seg with
        | .num n => toString n
        | .str s => "\"" ++ s ++ "\"")
      "$[" ++ String.intercalate "][" segments ++ "]"

/-- The single-primitive test of the source:
nodeData.text.length === 1 && !nodeData.text[0].key. -/
def isScalarNode (node : NodeData) : Bool :=
  singleKeyless node.text

/-- String(row.value ?? "") of the seeding effect: null and undefined
become the empty string; other values go through String(). -/
def seedString (v : JValue) : String :=
  match v with
  | .null => ""
  | .undefined => ""
  | v' => jsToString v'

/-- One step of the buffer-seeding loop of the source: an eligible row
stores its stringified value under its key. -/
def seedField (acc : List (String × String)) (r : Row) : List (String × String) :=
  if eligRow r then alSet acc (r.key.getD "") (seedString r.value) else acc

/-- The edit-buffer initialization of the source (the useEffect on open,
identical in handleCancel): for a single keyless row the buffer maps the
reserved key value to the stringified value; otherwise each eligible row
contributes its own key. -/
def initEditedFields (text : List Row) : List (String × String) :=
  if singleKeyless text then [("value", seedString (text.headD default).value)]
  else text.foldl seedField []

/-- The per-field try JSON.parse / catch use-as-string policy of
handleSave. -/
def parseOrFallback (s : String) : JValue :=
  match parseJson s with
  | some v => v
  | none => .str s

/-- The value assigned in the single-primitive branch: the parsed-or-raw
buffered text under the reserved key; if the buffer somehow lacks that
key, JSON.parse(undefined) throws and the raw undefined is assigned. -/
def scalarNewVal (fields : List (String × String)) : JValue :=
  match alLookup fields "value" with
  | some s => parseOrFallback s
  | none => .undefined

/-- The final assignment of the single-primitive branch, applied to the
resolved parent (none models an undefined parent, on which JS property
assignment throws). -/
def scalarOp (lastKey : String) (newVal : JValue) (parent : Option JValue) :
    Except Unit (Option JValue) :=
  match parent with
  | none => .error ()
  | some p =>
      match jsAssign p lastKey newVal with
      | .ok p' => .ok (some p')
      | .error e => .error e

/-- The object branch of handleSave: read current[lastKey]; if it is a
non-null object, write every buffered field into it with the
parse-or-fallback policy and write the mutated target back; otherwise do
nothing.  Reading a property of undefined or null throws. -/
def objectOp (lastKey : String) (fields : List (String × String))
    (parent : Option JValue) : Except Unit (Option JValue) :=
  match parent with
  | none => .error ()
  | some .null => .error ()
  | some .undefined => .error ()
  | some p =>
      match getMember p lastKey with
      | some t =>
          if isObjLike t then
            match fields.foldlM (fun acc kv => jsAssign acc kv.1 (parseOrFallback kv.2)) t with
            | .ok t' =>
                (match jsAssign p lastKey t' with
                 | .ok p' => .ok (some p')
                 | .error e => .error e)
            | .error e => .error e
          else .ok none
      | none => .ok none

/-- Pure resolution of the navigation loop of handleSave: walk the given
segments from the current value (none models undefined).  Property access
on undefined or null throws; on other primitives it yields undefined or a
derived primitive, exactly as getMember models it. -/
def walkSegs (cur : Option JValue) (segs : List JSeg) : Except Unit (Option JValue) :=
  match segs with
  | [] => .ok cur
  | s :: rest =>
      match cur with
      | none => .error ()
      | some .null => .error ()
      | some .undefined => .error ()
      | some v => walkSegs (getMember v (segToString s)) rest

/-- The navigation loop of handleSave together with the mutation at its
end: walk the segments, apply the final operation to the resolved parent,
and reflect the mutation back through the chain of container references.
A mutation below a primitive never reaches the document (primitives are
copied, and the length member of an array is a primitive), so nothing is
written back there; op answering none means no mutation happened. -/
def updAt (cur : Option JValue) (segs : List JSeg)
    (op : Option JValue → Except Unit (Option JValue)) :
    Except Unit (Option JValue) :=
  match segs with
  | [] =>
      (match op cur with
       | .error e => .error e
       | .ok (some v') => .ok (some v')
       | .ok none => .ok cur)
  | s :: rest =>
      match cur with
      | none => .error ()
      | some .null => .error ()
      | some .undefined => .error ()
      | some v =>
          let k := segToString s
          match updAt (getMember v k) rest op with
          | .error e => .error e
          | .ok newChild =>
              match v, newChild with
              | .obj fs, some c' => .ok (some (.obj (alSet fs k c')))
              | .arr xs, some c' =>
                  (match toIndex k with
                   | some i => .ok (some (.arr (arrSet xs i c')))
                   | none => .ok (some (.arr xs)))
              | _, _ => .ok cur

/-- The merge phase of handleSave on the parsed document (fullJson):
a non-empty path resolves its parent and applies the single-primitive or
object branch at the last segment; an empty path merges the buffered
fields directly into the root. -/
def mergeStep (root : JValue) (node : NodeData) (fields : List (String × String)) :
    Except Unit JValue :=
  if node.path.isEmpty then
    fields.foldlM (fun acc kv => jsAssign acc kv.1 (parseOrFallback kv.2)) root
  else
    match updAt (some root) node.path.dropLast
        (if isScalarNode node then
           scalarOp (segToString (node.path.getLastD (.str ""))) (scalarNewVal fields)
         else objectOp (segToString (node.path.getLastD (.str ""))) fields) with
    | .ok r => .ok (r.getD root)
    | .error e => .error e

/-- The whole document transformation of one save: parse the stored text,
merge, re-serialize.  An error anywhere is the exception caught by the
outer catch of handleSave. -/
def commitDoc (doc : String) (node : NodeData) (fields : List (String × String)) :
    Except Unit String :=
  match parseJson doc with
  | none => .error ()
  | some root =>
      match mergeStep root node fields with
      | .ok root' => .ok (stringify2 root')
      | .error e => .error e

/-- The optimistic projection installed as the selected node immediately
after the merge: the single-primitive branch replaces the sole row's
value; the object branch replaces the value of every row whose key is
truthy and present in the buffer.  Row type tags are left untouched, as
in the source. -/
def optimisticNode (node : NodeData) (fields : List (String × String)) : NodeData :=
  if isScalarNode node then
    { node with
      text :=
        match node.text with
        | r :: rest => { r with value := scalarNewVal fields } :: rest
        | [] => [] }
  else
    { node with
      text := node.text.map (fun r =>
        match r.key with
        | some k =>
            if k != "" then
              match alLookup fields k with
              | some s => { r with value := parseOrFallback s }
              | none => r
            else r
        | none => r) }

/-- The state surrounding handleSave: the document-store text, the
selected node, the edit-mode flag, the edit buffer, the captured nodes of
scheduled reconciliation timeouts, and the emitted success/failure
toasts. -/
structure ModalState : Type where
  doc : String
  selected : NodeData
  editing : Bool
  fields : List (String × String)
  pending : List NodeData
  toasts : List Bool
deriving Repr, Inhabited, BEq

/-- handleSave as a state transition.  On success the document text is
replaced by the re-serialized merged clone, the optimistic node is
installed, edit mode ends, one success toast fires, and a reconciliation
task capturing the save-time node is scheduled.  On any caught exception
only a single failure toast is emitted. -/
def handleSave (st : ModalState) : ModalState :=
  match commitDoc st.doc st.selected st.fields with
  | .ok newDoc =>
      { st with
        selected := optimisticNode st.selected st.fields,
        doc := newDoc,
        editing := false,
        toasts := st.toasts ++ [true],
        pending := st.pending ++ [st.selected] }
  | .error _ =>
      { st with toasts := st.toasts ++ [false] }

/-- The deferred reconciliation timeout of handleSave: look up the node
with the captured stable identifier in the freshly rebuilt collection;
if found, install it as the selected node (without comparing against the
current selection); if absent, leave the state untouched. -/
def fireReconcile (captured : NodeData) (nodes : List NodeData) (st : ModalState) :
    ModalState :=
  match nodes.find? (fun n => n.id == captured.id) with
  | some n => { st with selected := n }
  | none => st

/-- Pure read of the value a path addresses, used to state what a commit
wrote: the result of walking the whole path when that walk neither throws
nor ends at undefined. -/
def getAtPath (root : JValue) (path : List JSeg) : Option JValue :=
  match walkSegs (some root) path with
  | .ok r => r
  | .error _ => none

/-- The pure content of the per-field object-branch fold: successive
alSet writes of the parsed-or-raw buffered texts. -/
def writeFields (tfs : List (String × JValue)) (fields : List (String × String)) :
    List (String × JValue) :=
  fields.foldl (fun acc kv => alSet acc kv.1 (parseOrFallback kv.2)) tfs

/-- Claim-side segment rendering of C8, from the claim words: numeric
segments bare, string segments wrapped in double quotes. -/
def renderSegSpec : JSeg → String
  | .num n => toString n
  | .str s => "\"" ++ s ++ "\""

/-- Claim-side object of C5, from the claim words: an object keyed by
each keyed row's key, omitting every row of type array or object (rows
without a usable key cannot be keyed and are omitted as well). -/
def specRowObject (rows : List Row) : List (String × JValue) :=
  rows.foldl
    (fun acc r =>
      if r.ty != RowType.array && r.ty != RowType.object && keyTruthy r.key then
        alSet acc (r.key.getD "") r.value
      else acc)
    []

theorem alSet_lookup_self {α : Type} (fs : List (String × α)) (k : String) (v : α) :
    alLookup (alSet fs k v) k = some v := by
  induction fs with
  | nil => simp [alSet, alLookup]
  | cons hd tl ih =>
      obtain ⟨k', v'⟩ := hd
      by_cases h : k' = k
      · simp [alSet, h, alLookup]
      · simp [alSet, h, alLookup, ih]

theorem alSet_lookup_ne {α : Type} (fs : List (String × α)) {k k' : String} (v : α)
    (h : k' ≠ k) : alLookup (alSet fs k v) k' = alLookup fs k' := by
  have h' : ¬k = k' := fun e => h e.symm
  induction fs with
  | nil => simp [alSet, alLookup, h']
  | cons hd tl ih =>
      obtain ⟨k0, v0⟩ := hd
      by_cases h0 : k0 = k
      · subst h0
        simp [alSet, alLookup, h']
      · by_cases h1 : k0 = k'
        · simp [alSet, alLookup, h0, h1, h, h']
        · simp [alSet, alLookup, h0, h1, h, h', ih]

theorem alSet_self {α : Type} (fs : List (String × α)) (k : String) (v : α)
    (h : alLookup fs k = some v) : alSet fs k v = fs := by
  induction fs with
  | nil => simp [alLookup] at h
  | cons hd tl ih =>
      obtain ⟨k0, v0⟩ := hd
      by_cases h0 : k0 = k
      · subst h0
        simp [alLookup] at h
        simp [alSet, h]
      · simp [alLookup, h0] at h
        simp [alSet, h0, ih h]

theorem alLookup_mem {α : Type} {fs : List (String × α)} {k : String} {v : α}
    (h : alLookup fs k = some v) : (k, v) ∈ fs := by
  induction fs with
  | nil => simp [alLookup] at h
  | cons hd tl ih =>
      obtain ⟨k0, v0⟩ := hd
      by_cases h0 : k0 = k
      · subst h0
        simp [alLookup] at h
        simp [h]
      · simp [alLookup, h0] at h
        simp [ih h]

theorem mem_alSet_keys {α : Type} : ∀ {fs : List (String × α)} {k k'' : String} {v : α},
    k'' ∈ (alSet fs k v).map Prod.fst → k'' = k ∨ k'' ∈ fs.map Prod.fst := by
  intro fs
  induction fs with
  | nil =>
      intro k k'' v h
      simpa [alSet] using h
  | cons hd tl ih =>
      intro k k'' v h
      obtain ⟨k0, v0⟩ := hd
      by_cases h0 : k0 = k
      · rw [show alSet ((k0, v0) :: tl) k v = (k0, v) :: tl from by simp [alSet, h0]] at h
        rw [List.map_cons, List.mem_cons] at h
        rcases h with h | h
        · exact Or.inl (h.trans h0)
        · exact Or.inr (by rw [List.map_cons, List.mem_cons]; exact Or.inr h)
      · rw [show alSet ((k0, v0) :: tl) k v = (k0, v0) :: alSet tl k v from by
            simp [alSet, h0]] at h
        rw [List.map_cons, List.mem_cons] at h
        rcases h with h | h
        · exact Or.inr (by rw [List.map_cons, List.mem_cons]; exact Or.inl h)
        · rcases ih h with h' | h'
          · exact Or.inl h'
          · exact Or.inr (by rw [List.map_cons, List.mem_cons]; exact Or.inr h')

theorem alSet_keys_nodup {α : Type} : ∀ {fs : List (String × α)} (k : String) (v : α),
    (fs.map Prod.fst).Nodup → ((alSet fs k v).map Prod.fst).Nodup := by
  intro fs
  induction fs with
  | nil => intro k v h; simp [alSet]
  | cons hd tl ih =>
      intro k v h
      obtain ⟨k0, v0⟩ := hd
      rw [List.map_cons, List.nodup_cons] at h
      obtain ⟨hnot, htl⟩ := h
      by_cases h0 : k0 = k
      · rw [show alSet ((k0, v0) :: tl) k v = (k0, v) :: tl from by simp [alSet, h0]]
        rw [List.map_cons, List.nodup_cons]
        exact ⟨hnot, htl⟩
      · rw [show alSet ((k0, v0) :: tl) k v = (k0, v0) :: alSet tl k v from by
            simp [alSet, h0]]
        rw [List.map_cons, List.nodup_cons]
        refine ⟨?_, ih k v htl⟩
        intro hmem
        rcases mem_alSet_keys hmem with h' | h'
        · exact h0 h'
        · exact hnot h'

theorem listGet_set_self : ∀ (xs : List JValue) (i : Nat) (v : JValue),
    i < xs.length → (xs.set i v).get? i = some v := by
  intro xs
  induction xs with
  | nil => intro i v h; simp at h
  | cons hd tl ih =>
      intro i v h
      cases i with
      | zero => simp only [List.set, List.get?]
      | succ j =>
          simp only [List.set, List.get?]
          exact ih j v (by simpa using h)

theorem listSet_get_self : ∀ (xs : List JValue) (i : Nat) (c : JValue),
    xs.get? i = some c → xs.set i c = xs := by
  intro xs
  induction xs with
  | nil => intro i c h; simp [List.get?] at h
  | cons hd tl ih =>
      intro i c h
      cases i with
      | zero =>
          simp only [List.get?, Option.some.injEq] at h
          simp [List.set, h]
      | succ j =>
          simp only [List.get?] at h
          simp only [List.set]
          rw [ih j c h]

theorem get_pad_end : ∀ (m : Nat) (v : JValue),
    (List.replicate m JValue.null ++ [v]).get? m = some v := by
  intro m
  induction m with
  | zero => intro v; simp
  | succ j ihm =>
      intro v
      simp only [List.replicate, List.cons_append, List.get?]
      exact ihm v

theorem get_append_pad : ∀ (xs : List JValue) (m : Nat) (v : JValue),
    (xs ++ List.replicate m JValue.null ++ [v]).get? (xs.length + m) = some v := by
  intro xs
  induction xs with
  | nil =>
      intro m v
      simp only [List.nil_append, List.length_nil, Nat.zero_add]
      exact get_pad_end m v
  | cons hd tl ih =>
      intro m v
      have : (hd :: tl).length + m = (tl.length + m) + 1 := by
        simp [Nat.succ_add]
      rw [this]
      simp only [List.cons_append, List.get?]
      exact ih m v

theorem arrSet_get (xs : List JValue) (i : Nat) (v : JValue) :
    (arrSet xs i v).get? i = some v := by
  unfold arrSet
  by_cases h : i < xs.length
  · simp only [h, if_true]
    exact listGet_set_self xs i v h
  · obtain ⟨m, rfl⟩ : ∃ m, i = xs.length + m := ⟨i - xs.length, by omega⟩
    simp only [h, if_false]
    have hm : xs.length + m - xs.length = m := by omega
    rw [hm]
    exact get_append_pad xs m v

theorem padTrunc_length (xs : List JValue) (n : Nat) :
    (padTrunc xs n).length = n := by
  unfold padTrunc
  by_cases h : n ≤ xs.length
  · simp [h]
  · simp [h]
    omega

theorem padTrunc_self (xs : List JValue) : padTrunc xs xs.length = xs := by
  simp [padTrunc]

theorem get_some_lt : ∀ (xs : List JValue) (i : Nat) (c : JValue),
    xs.get? i = some c → i < xs.length := by
  intro xs
  induction xs with
  | nil => intro i c h; simp [List.get?] at h
  | cons hd tl ih =>
      intro i c h
      cases i with
      | zero => simp
      | succ j =>
          simp only [List.get?] at h
          simpa using ih j c h

theorem arrSet_self (xs : List JValue) (i : Nat) (c : JValue)
    (h : xs.get? i = some c) : arrSet xs i c = xs := by
  unfold arrSet
  rw [if_pos (get_some_lt xs i c h)]
  exact listSet_get_self xs i c h

theorem toIndex_length_none : toIndex "length" = none := by decide

theorem jsAssign_ok_objLike : ∀ {v : JValue} {k : String} {x v' : JValue},
    jsAssign v k x = .ok v' → isObjLike v = true ∧ isObjLike v' = true := by
  intro v k x v' h
  cases v with
  | null => exact absurd h (by simp [jsAssign])
  | undefined => exact absurd h (by simp [jsAssign])
  | bool b => exact absurd h (by simp [jsAssign])
  | num n => exact absurd h (by simp [jsAssign])
  | str s => exact absurd h (by simp [jsAssign])
  | obj fs =>
      refine ⟨rfl, ?_⟩
      simp only [jsAssign, Except.ok.injEq] at h
      rw [← h]
      rfl
  | arr xs =>
      refine ⟨rfl, ?_⟩
      simp only [jsAssign] at h
      rcases htx : toIndex k with _ | i
      · rw [htx] at h
        simp only [] at h
        by_cases hk : k = "length"
        · rw [if_pos hk] at h
          cases x with
          | num n =>
              simp only [] at h
              by_cases hn : (0 : Int) ≤ n
              · rw [if_pos hn] at h
                simp only [Except.ok.injEq] at h
                rw [← h]; rfl
              · rw [if_neg hn] at h; exact absurd h (by simp)
          | null => exact absurd h (by simp)
          | undefined => exact absurd h (by simp)
          | bool b => exact absurd h (by simp)
          | str s => exact absurd h (by simp)
          | arr ys => exact absurd h (by simp)
          | obj gs => exact absurd h (by simp)
        · rw [if_neg hk] at h
          simp only [Except.ok.injEq] at h
          rw [← h]; rfl
      · rw [htx] at h
        simp only [] at h
        simp only [Except.ok.injEq] at h
        rw [← h]; rfl

theorem getMember_assign : ∀ {p : JValue} {k : String} {t x p' : JValue},
    getMember p k = some t → jsAssign p k x = .ok p' → getMember p' k = some x := by
  intro p k t x p' hmem h
  cases p with
  | null => simp [getMember] at hmem
  | undefined => simp [getMember] at hmem
  | bool b => simp [getMember] at hmem
  | num n => simp [getMember] at hmem
  | str s => exact absurd h (by simp [jsAssign])
  | obj fs =>
      simp only [jsAssign, Except.ok.injEq] at h
      rw [← h]
      simp [getMember, alSet_lookup_self]
  | arr xs =>
      simp only [jsAssign] at h
      rcases htx : toIndex k with _ | i
      · rw [htx] at h
        simp only [] at h
        by_cases hk : k = "length"
        · subst hk
          rw [if_pos rfl] at h
          cases x with
          | num n =>
              simp only [] at h
              by_cases hn : (0 : Int) ≤ n
              · rw [if_pos hn] at h
                simp only [Except.ok.injEq] at h
                rw [← h]
                simp [getMember, padTrunc_length, Int.toNat_of_nonneg hn]
              · rw [if_neg hn] at h; exact absurd h (by simp)
          | null => exact absurd h (by simp)
          | undefined => exact absurd h (by simp)
          | bool b => exact absurd h (by simp)
          | str s' => exact absurd h (by simp)
          | arr ys => exact absurd h (by simp)
          | obj gs => exact absurd h (by simp)
        · simp [getMember, hk, htx] at hmem
      · rw [htx] at h
        simp only [] at h
        simp only [Except.ok.injEq] at h
        rw [← h]
        have hkl : k ≠ "length" := by
          intro he
          rw [he, toIndex_length_none] at htx
          cases htx
        simp only [getMember]
        rw [if_neg hkl, htx]
        exact arrSet_get xs i x

theorem walk_append : ∀ (xs ys : List JSeg) (cur : Option JValue),
    walkSegs cur (xs ++ ys) =
      match walkSegs cur xs with
      | .ok r => walkSegs r ys
      | .error e => .error e := by
  intro xs
  induction xs with
  | nil =>
      intro ys cur
      simp [walkSegs]
  | cons s rest ih =>
      intro ys cur
      cases cur with
      | none => simp [walkSegs]
      | some v =>
          cases v with
          | null => simp [walkSegs]
          | undefined => simp [walkSegs]
          | bool b => simp only [List.cons_append, walkSegs]; exact ih ys _
          | num n => simp only [List.cons_append, walkSegs]; exact ih ys _
          | str s' => simp only [List.cons_append, walkSegs]; exact ih ys _
          | arr es => simp only [List.cons_append, walkSegs]; exact ih ys _
          | obj fs => simp only [List.cons_append, walkSegs]; exact ih ys _

theorem getMember_prim_not_objLike : ∀ {w : JValue} {k : String} {w' : JValue},
    isObjLike w = false → getMember w k = some w' → isObjLike w' = false := by
  intro w k w' hw h
  cases w with
  | obj fs => simp [isObjLike] at hw
  | arr xs => simp [isObjLike] at hw
  | null => simp [getMember] at h
  | undefined => simp [getMember] at h
  | bool b => simp [getMember] at h
  | num n => simp [getMember] at h
  | str s =>
      simp only [getMember] at h
      by_cases hk : k = "length"
      · rw [if_pos hk] at h
        simp only [Option.some.injEq] at h
        rw [← h]; rfl
      · rw [if_neg hk] at h
        rcases htx : toIndex k with _ | i
        · rw [htx] at h
          simp only [] at h
          cases h
        · rw [htx] at h
          simp only [] at h
          rcases Option.map_eq_some'.mp h with ⟨c, _, hc⟩
          rw [← hc]; rfl

theorem walk_not_objLike : ∀ (segs : List JSeg) (w parent : JValue),
    isObjLike w = false → walkSegs (some w) segs = .ok (some parent) →
    isObjLike parent = true → False := by
  intro segs
  induction segs with
  | nil =>
      intro w parent hw hwalk hp
      simp only [walkSegs, Except.ok.injEq, Option.some.injEq] at hwalk
      rw [hwalk] at hw
      rw [hw] at hp
      cases hp
  | cons s rest ih =>
      intro w parent hw hwalk hp
      cases w with
      | null => simp [walkSegs] at hwalk
      | undefined => simp [walkSegs] at hwalk
      | obj fs => simp [isObjLike] at hw
      | arr xs => simp [isObjLike] at hw
      | bool b =>
          rw [show walkSegs (some (JValue.bool b)) (s :: rest)
                = walkSegs (getMember (JValue.bool b) (segToString s)) rest from rfl] at hwalk
          cases hm : getMember (JValue.bool b) (segToString s) with
          | none =>
              rw [hm] at hwalk
              cases rest <;> simp [walkSegs] at hwalk
          | some w' =>
              rw [hm] at hwalk
              exact ih w' parent (getMember_prim_not_objLike (by rfl) hm) hwalk hp
      | num n =>
          rw [show walkSegs (some (JValue.num n)) (s :: rest)
                = walkSegs (getMember (JValue.num n) (segToString s)) rest from rfl] at hwalk
          cases hm : getMember (JValue.num n) (segToString s) with
          | none =>
              rw [hm] at hwalk
              cases rest <;> simp [walkSegs] at hwalk
          | some w' =>
              rw [hm] at hwalk
              exact ih w' parent (getMember_prim_not_objLike (by rfl) hm) hwalk hp
      | str s' =>
          rw [show walkSegs (some (JValue.str s')) (s :: rest)
                = walkSegs (getMember (JValue.str s') (segToString s)) rest from rfl] at hwalk
          cases hm : getMember (JValue.str s') (segToString s) with
          | none =>
              rw [hm] at hwalk
              cases rest <;> simp [walkSegs] at hwalk
          | some w' =>
              rw [hm] at hwalk
              exact ih w' parent (getMember_prim_not_objLike (by rfl) hm) hwalk hp

theorem updAt_skip : ∀ (segs : List JSeg) (cur parent : Option JValue)
    (op : Option JValue → Except Unit (Option JValue)),
    walkSegs cur segs = .ok parent → op parent = .ok none →
    updAt cur segs op = .ok cur := by
  intro segs
  induction segs with
  | nil =>
      intro cur parent op hwalk hop
      simp only [walkSegs, Except.ok.injEq] at hwalk
      subst hwalk
      simp only [updAt]
      rw [hop]
  | cons s rest ih =>
      intro cur parent op hwalk hop
      cases cur with
      | none => simp [walkSegs] at hwalk
      | some v =>
          cases v with
          | null => simp [walkSegs] at hwalk
          | undefined => simp [walkSegs] at hwalk
          | bool b =>
              have hrec := ih (getMember (JValue.bool b) (segToString s)) parent op hwalk hop
              simp only [updAt]
              rw [hrec]
          | num n =>
              have hrec := ih (getMember (JValue.num n) (segToString s)) parent op hwalk hop
              simp only [updAt]
              rw [hrec]
          | str s' =>
              have hrec := ih (getMember (JValue.str s') (segToString s)) parent op hwalk hop
              simp only [updAt]
              rw [hrec]
          | obj fs =>
              have hrec := ih (getMember (JValue.obj fs) (segToString s)) parent op hwalk hop
              simp only [updAt]
              rw [hrec]
              cases hm : alLookup fs (segToString s) with
              | none =>
                  rw [show getMember (JValue.obj fs) (segToString s) = none from hm]
              | some c =>
                  rw [show getMember (JValue.obj fs) (segToString s) = some c from hm]
                  simp only []
                  rw [alSet_self fs (segToString s) c hm]
          | arr xs =>
              have hrec := ih (getMember (JValue.arr xs) (segToString s)) parent op hwalk hop
              simp only [updAt]
              rw [hrec]
              by_cases hk : segToString s = "length"
              · rw [show getMember (JValue.arr xs) (segToString s)
                      = some (JValue.num xs.length) from by simp [getMember, hk]]
                simp only []
                rw [hk, toIndex_length_none]
              · rcases htx : toIndex (segToString s) with _ | i
                · rw [show getMember (JValue.arr xs) (segToString s) = none from by
                      simp only [getMember]
                      rw [if_neg hk, htx]]
                · cases hg : xs.get? i with
                  | none =>
                      rw [show getMember (JValue.arr xs) (segToString s) = none from by
                          simp only [getMember]
                          rw [if_neg hk, htx]
                          exact hg]
                  | some c =>
                      rw [show getMember (JValue.arr xs) (segToString s) = some c from by
                          simp only [getMember]
                          rw [if_neg hk, htx]
                          exact hg]
                      simp only []
                      rw [arrSet_self xs i c hg]

theorem updAt_write : ∀ (segs : List JSeg) (v parent p' : JValue)
    (op : Option JValue → Except Unit (Option JValue)),
    walkSegs (some v) segs = .ok (some parent) →
    isObjLike parent = true →
    op (some parent) = .ok (some p') →
    ∃ v', updAt (some v) segs op = .ok (some v') ∧
      walkSegs (some v') segs = .ok (some p') := by
  intro segs
  induction segs with
  | nil =>
      intro v parent p' op hwalk hp hop
      simp only [walkSegs, Except.ok.injEq, Option.some.injEq] at hwalk
      subst hwalk
      refine ⟨p', ?_, by simp [walkSegs]⟩
      simp only [updAt]
      rw [hop]
  | cons s rest ih =>
      intro v parent p' op hwalk hp hop
      cases v with
      | null => simp [walkSegs] at hwalk
      | undefined => simp [walkSegs] at hwalk
      | bool b => exact absurd hp (by simpa using walk_not_objLike (s :: rest) _ parent (by rfl) hwalk)
      | num n => exact absurd hp (by simpa using walk_not_objLike (s :: rest) _ parent (by rfl) hwalk)
      | str s' => exact absurd hp (by simpa using walk_not_objLike (s :: rest) _ parent (by rfl) hwalk)
      | obj fs =>
          have hwalk' : walkSegs (getMember (JValue.obj fs) (segToString s)) rest
              = .ok (some parent) := hwalk
          cases hm : alLookup fs (segToString s) with
          | none =>
              rw [show getMember (JValue.obj fs) (segToString s) = none from hm] at hwalk'
              cases rest <;> simp [walkSegs] at hwalk'
          | some c =>
              rw [show getMember (JValue.obj fs) (segToString s) = some c from hm] at hwalk'
              obtain ⟨c', hupd, hwalkc⟩ := ih c parent p' op hwalk' hp hop
              refine ⟨.obj (alSet fs (segToString s) c'), ?_, ?_⟩
              · simp only [updAt]
                rw [show getMember (JValue.obj fs) (segToString s) = some c from hm, hupd]
              · show walkSegs (getMember (JValue.obj (alSet fs (segToString s) c'))
                    (segToString s)) rest = .ok (some p')
                rw [show getMember (JValue.obj (alSet fs (segToString s) c')) (segToString s)
                      = some c' from alSet_lookup_self fs (segToString s) c']
                exact hwalkc
      | arr xs =>
          have hwalk' : walkSegs (getMember (JValue.arr xs) (segToString s)) rest
              = .ok (some parent) := hwalk
          by_cases hk : segToString s = "length"
          · rw [show getMember (JValue.arr xs) (segToString s)
                  = some (JValue.num xs.length) from by simp [getMember, hk]] at hwalk'
            exact absurd hp (by simpa using walk_not_objLike rest _ parent (by rfl) hwalk')
          · rcases htx : toIndex (segToString s) with _ | i
            · rw [show getMember (JValue.arr xs) (segToString s) = none from by
                  simp [getMember, hk, htx]] at hwalk'
              cases rest <;> simp [walkSegs] at hwalk'
            · cases hg : xs.get? i with
              | none =>
                  rw [show getMember (JValue.arr xs) (segToString s) = none from by
                      simp only [getMember]
                      rw [if_neg hk, htx]
                      exact hg] at hwalk'
                  cases rest <;> simp [walkSegs] at hwalk'
              | some c =>
                  rw [show getMember (JValue.arr xs) (segToString s) = some c from by
                      simp only [getMember]
                      rw [if_neg hk, htx]
                      exact hg] at hwalk'
                  obtain ⟨c', hupd, hwalkc⟩ := ih c parent p' op hwalk' hp hop
                  refine ⟨.arr (arrSet xs i c'), ?_, ?_⟩
                  · simp only [updAt]
                    rw [show getMember (JValue.arr xs) (segToString s) = some c from by
                        simp only [getMember]
                        rw [if_neg hk, htx]
                        exact hg, hupd]
                    simp only []
                    rw [htx]
                  · show walkSegs (getMember (JValue.arr (arrSet xs i c'))
                        (segToString s)) rest = .ok (some p')
                    rw [show getMember (JValue.arr (arrSet xs i c')) (segToString s)
                          = some c' from by
                        simp only [getMember]
                        rw [if_neg hk, htx]
                        exact arrSet_get xs i c']
                    exact hwalkc

theorem foldlM_jsAssign_obj : ∀ (fields : List (String × String)) (tfs : List (String × JValue)),
    List.foldlM (fun acc kv => jsAssign acc kv.1 (parseOrFallback kv.2)) (JValue.obj tfs) fields
      = .ok (.obj (writeFields tfs fields)) := by
  intro fields
  induction fields with
  | nil => intro tfs; rfl
  | cons kv rest ih =>
      intro tfs
      obtain ⟨k, s⟩ := kv
      rw [List.foldlM_cons]
      show (Except.ok (JValue.obj (alSet tfs k (parseOrFallback s)))
          >>= fun acc => List.foldlM (fun acc kv => jsAssign acc kv.1 (parseOrFallback kv.2)) acc rest)
        = Except.ok (JValue.obj (writeFields tfs ((k, s) :: rest)))
      show List.foldlM (fun acc kv => jsAssign acc kv.1 (parseOrFallback kv.2))
          (JValue.obj (alSet tfs k (parseOrFallback s))) rest
        = Except.ok (JValue.obj (writeFields tfs ((k, s) :: rest)))
      exact ih (alSet tfs k (parseOrFallback s))

theorem writeFields_lookup_notmem : ∀ (fields : List (String × String))
    (tfs : List (String × JValue)) (k : String),
    k ∉ fields.map Prod.fst →
    alLookup (writeFields tfs fields) k = alLookup tfs k := by
  intro fields
  induction fields with
  | nil => intro tfs k _; rfl
  | cons kv rest ih =>
      intro tfs k hk
      obtain ⟨k0, s0⟩ := kv
      rw [List.map_cons] at hk
      have hne : k ≠ k0 := fun he => hk (by rw [he]; exact List.mem_cons_self _ _)
      have hrest : k ∉ rest.map Prod.fst := fun hmem => hk (List.mem_cons_of_mem _ hmem)
      show alLookup (writeFields (alSet tfs k0 (parseOrFallback s0)) rest) k = alLookup tfs k
      rw [ih (alSet tfs k0 (parseOrFallback s0)) k hrest]
      exact alSet_lookup_ne tfs (parseOrFallback s0) hne

theorem writeFields_lookup : ∀ (fields : List (String × String))
    (tfs : List (String × JValue)) (k s : String),
    (fields.map Prod.fst).Nodup → (k, s) ∈ fields →
    alLookup (writeFields tfs fields) k = some (parseOrFallback s) := by
  intro fields
  induction fields with
  | nil => intro tfs k s _ hmem; simp at hmem
  | cons kv rest ih =>
      intro tfs k s hnodup hmem
      obtain ⟨k0, s0⟩ := kv
      rw [List.map_cons, List.nodup_cons] at hnodup
      rcases List.mem_cons.mp hmem with heq | hmem'
      · obtain ⟨hk, hs⟩ := Prod.mk.injEq .. ▸ (by exact heq : (k, s) = (k0, s0))
        subst hk; subst hs
        show alLookup (writeFields (alSet tfs k (parseOrFallback s)) rest) k
            = some (parseOrFallback s)
        rw [writeFields_lookup_notmem rest _ k hnodup.1]
        exact alSet_lookup_self tfs k (parseOrFallback s)
      · exact ih (alSet tfs k0 (parseOrFallback s0)) k s hnodup.2 hmem'

theorem seedFoldl_notmem : ∀ (text : List Row) (acc : List (String × String)) (k : String),
    (∀ r ∈ text, eligRow r = true → r.key.getD "" ≠ k) →
    alLookup (text.foldl seedField acc) k = alLookup acc k := by
  intro text
  induction text with
  | nil => intro acc k _; rfl
  | cons r0 rest ih =>
      intro acc k hk
      rw [List.foldl_cons]
      rw [ih (seedField acc r0) k (fun r hr he => hk r (List.mem_cons_of_mem _ hr) he)]
      unfold seedField
      by_cases he : eligRow r0 = true
      · rw [if_pos he]
        exact alSet_lookup_ne acc _ (fun hke => (hk r0 (List.mem_cons_self _ _) he) hke.symm)
      · rw [if_neg he]

theorem seedFoldl_lookup : ∀ (text : List Row) (acc : List (String × String)) (r : Row)
    (k : String),
    ((text.filter eligRow).map (fun r => r.key.getD "")).Nodup →
    r ∈ text → eligRow r = true → r.key.getD "" = k →
    alLookup (text.foldl seedField acc) k = some (seedString r.value) := by
  intro text
  induction text with
  | nil => intro acc r k _ hmem; simp at hmem
  | cons r0 rest ih =>
      intro acc r k hnodup hmem helig hkey
      rw [List.foldl_cons]
      rcases List.mem_cons.mp hmem with heq | hmem'
      · subst heq
        rw [List.filter_cons, if_pos helig, List.map_cons, List.nodup_cons] at hnodup
        have hnone : ∀ r' ∈ rest, eligRow r' = true → r'.key.getD "" ≠ k := by
          intro r' hr' he' hke
          exact hnodup.1 (by
            rw [hkey, ← hke]
            exact List.mem_map_of_mem _ (List.mem_filter.mpr ⟨hr', he'⟩))
        rw [seedFoldl_notmem rest (seedField acc r) k hnone]
        unfold seedField
        rw [if_pos helig, hkey]
        exact alSet_lookup_self acc k (seedString r.value)
      · have hnodup' : ((rest.filter eligRow).map (fun r => r.key.getD "")).Nodup := by
          rw [List.filter_cons] at hnodup
          by_cases he0 : eligRow r0 = true
          · rw [if_pos he0, List.map_cons, List.nodup_cons] at hnodup
            exact hnodup.2
          · rwa [if_neg he0] at hnodup
        exact ih (seedField acc r0) r k hnodup' hmem' helig hkey

theorem foldl_seedField_keys_nodup : ∀ (text : List Row) (acc : List (String × String)),
    (acc.map Prod.fst).Nodup → ((text.foldl seedField acc).map Prod.fst).Nodup := by
  intro text
  induction text with
  | nil => intro acc h; exact h
  | cons r0 rest ih =>
      intro acc h
      rw [List.foldl_cons]
      refine ih (seedField acc r0) ?_
      unfold seedField
      by_cases he : eligRow r0 = true
      · rw [if_pos he]
        exact alSet_keys_nodup _ _ h
      · rwa [if_neg he]

theorem initEditedFields_keys_nodup (text : List Row) :
    ((initEditedFields text).map Prod.fst).Nodup := by
  unfold initEditedFields
  by_cases h : singleKeyless text = true
  · rw [if_pos h]; simp
  · rw [if_neg h]
    exact foldl_seedField_keys_nodup text [] (by simp)

theorem dropLast_snoc {α : Type} (l : List α) (a : α) : (l ++ [a]).dropLast = l :=
  List.dropLast_concat

theorem getLastD_snoc {α : Type} (l : List α) (a d : α) : (l ++ [a]).getLastD d = a :=
  List.getLastD_concat d a l

theorem mergeStep_nonempty (root : JValue) (node : NodeData)
    (fields : List (String × String)) (pre : List JSeg) (lk : JSeg)
    (hpath : node.path = pre ++ [lk]) :
    mergeStep root node fields =
      match updAt (some root) pre
          (if isScalarNode node then
             scalarOp (segToString lk) (scalarNewVal fields)
           else objectOp (segToString lk) fields) with
      | .ok r => .ok (r.getD root)
      | .error e => .error e := by
  unfold mergeStep
  rw [hpath]
  rw [show (pre ++ [lk]).isEmpty = false from by cases pre <;> rfl]
  rw [dropLast_snoc, getLastD_snoc]
  rfl

theorem assign_ok_of_member_objLike (p : JValue) (k : String) (t x : JValue)
    (hmem : getMember p k = some t) (ht : isObjLike t = true) :
    ∃ p', jsAssign p k x = .ok p' := by
  cases p with
  | obj fs => exact ⟨_, rfl⟩
  | null => simp [getMember] at hmem
  | undefined => simp [getMember] at hmem
  | bool b => simp [getMember] at hmem
  | num n => simp [getMember] at hmem
  | str s =>
      have := getMember_prim_not_objLike (w := .str s) (by rfl) hmem
      rw [ht] at this
      cases this
  | arr xs =>
      by_cases hk : k = "length"
      · rw [show getMember (JValue.arr xs) k = some (JValue.num xs.length) from by
            simp [getMember, hk]] at hmem
        simp only [Option.some.injEq] at hmem
        rw [← hmem] at ht
        cases ht
      · rcases htx : toIndex k with _ | i
        · rw [show getMember (JValue.arr xs) k = none from by
              simp only [getMember]
              rw [if_neg hk, htx]] at hmem
          cases hmem
        · refine ⟨.arr (arrSet xs i x), ?_⟩
          simp only [jsAssign]
          rw [htx]

theorem walk_single_objLike (p : JValue) (lk : JSeg) (h : isObjLike p = true) :
    walkSegs (some p) [lk] = .ok (getMember p (segToString lk)) := by
  cases p with
  | obj fs => rfl
  | arr xs => rfl
  | null => cases h
  | undefined => cases h
  | bool b => cases h
  | num n => cases h
  | str s => cases h

theorem foldlM_single (root : JValue) (k s : String) :
    List.foldlM (fun acc kv => jsAssign acc kv.1 (parseOrFallback kv.2)) root [(k, s)]
      = jsAssign root k (parseOrFallback s) := by
  rw [List.foldlM_cons]
  cases h : jsAssign root k (parseOrFallback s) with
  | ok v => rfl
  | error e => rfl

theorem objectOp_eq (lkS : String) (fields : List (String × String)) (p : JValue)
    (hnn : p ≠ .null) (hnu : p ≠ .undefined) :
    objectOp lkS fields (some p) =
      match getMember p lkS with
      | some t =>
          if isObjLike t then
            match List.foldlM (fun acc kv => jsAssign acc kv.1 (parseOrFallback kv.2))
                t fields with
            | .ok t' =>
                (match jsAssign p lkS t' with
                 | .ok p' => .ok (some p')
                 | .error e => .error e)
            | .error e => .error e
          else .ok none
      | none => .ok none := by
  cases p with
  | null => exact absurd rfl hnn
  | undefined => exact absurd rfl hnu
  | bool b => rfl
  | num n => rfl
  | str s => rfl
  | arr xs => rfl
  | obj fs => rfl

theorem objectOp_skip (lkS : String) (fields : List (String × String)) (parent : JValue)
    (hnn : parent ≠ .null) (hnu : parent ≠ .undefined)
    (htarget : ∀ t, getMember parent lkS = some t → isObjLike t = false) :
    objectOp lkS fields (some parent) = .ok none := by
  rw [objectOp_eq lkS fields parent hnn hnu]
  cases hm : getMember parent lkS with
  | none => rfl
  | some t =>
      simp only []
      rw [if_neg (by simp [htarget t hm])]

theorem objectOp_write (lkS : String) (fields : List (String × String)) (parent : JValue)
    (tfs : List (String × JValue)) (parent' : JValue)
    (htarget : getMember parent lkS = some (.obj tfs))
    (hassign : jsAssign parent lkS (.obj (writeFields tfs fields)) = .ok parent') :
    objectOp lkS fields (some parent) = .ok (some parent') := by
  have hnn : parent ≠ JValue.null := by
    intro he
    rw [he] at htarget
    simp [getMember] at htarget
  have hnu : parent ≠ JValue.undefined := by
    intro he
    rw [he] at htarget
    simp [getMember] at htarget
  rw [objectOp_eq lkS fields parent hnn hnu]
  rw [htarget]
  simp only []
  rw [if_pos (show isObjLike (JValue.obj tfs) = true from rfl)]
  rw [foldlM_jsAssign_obj]
  simp only []
  rw [hassign]

theorem scalarOp_write (lkS : String) (newVal : JValue) (parent parent' : JValue)
    (hassign : jsAssign parent lkS newVal = .ok parent') :
    scalarOp lkS newVal (some parent) = .ok (some parent') := by
  show (match jsAssign parent lkS newVal with
    | .ok p' => Except.ok (some p') | .error e => Except.error e) = _
  rw [hassign]

theorem parseOrFallback_parsed {s : String} {v : JValue} (h : parseJson s = some v) :
    parseOrFallback s = v := by
  unfold parseOrFallback
  rw [h]

theorem parseOrFallback_raw {s : String} (h : parseJson s = none) :
    parseOrFallback s = .str s := by
  unfold parseOrFallback
  rw [h]

theorem mergeStep_write (root : JValue) (node : NodeData)
    (fields : List (String × String)) (pre : List JSeg) (lk : JSeg)
    (parent parent' : JValue)
    (hpath : node.path = pre ++ [lk])
    (hwalk : walkSegs (some root) pre = .ok (some parent))
    (hpobj : isObjLike parent = true) (hpobj' : isObjLike parent' = true)
    (hop : (if isScalarNode node then scalarOp (segToString lk) (scalarNewVal fields)
            else objectOp (segToString lk) fields) (some parent) = .ok (some parent')) :
    ∃ root', mergeStep root node fields = .ok root' ∧
      getAtPath root' node.path = getMember parent' (segToString lk) := by
  obtain ⟨root', hupd, hwalk'⟩ := updAt_write pre root parent parent' _ hwalk hpobj hop
  refine ⟨root', ?_, ?_⟩
  · rw [mergeStep_nonempty root node fields pre lk hpath, hupd]
    rfl
  · unfold getAtPath
    rw [hpath, walk_append pre [lk] (some root'), hwalk']
    simp only []
    rw [walk_single_objLike parent' lk hpobj']

/-- C1 counterexample: an invalidated path that resolves, without
throwing, to a non-container falsifies the claim as stated.  With
document text for the object with field a = 5 and path a.x on an
object-shaped node, the navigation reaches the number 5; reading a
property of a number does not throw, the typeof guard is false, and the
commit reports success (a success toast, no failure) while replacing the
displayed node's field value 1 by the optimistic 2 — no atomic abort and
no failure report, although address resolution never reached a
container. -/
theorem invalidated_path_reports_success :
    walkSegs (some (JValue.obj [("a", .num 5)]))
        (([JSeg.str "a", JSeg.str "x"] : List JSeg).dropLast)
      = .ok (some (JValue.num 5)) ∧
    isObjLike (JValue.num 5) = false ∧
    (handleSave ⟨stringify2 (.obj [("a", .num 5)]),
        ⟨"n", [.str "a", .str "x"], [⟨some "k", .num 1, .number⟩]⟩,
        true, [("k", "2")], [], []⟩).toasts = [true] ∧
    ((handleSave ⟨stringify2 (.obj [("a", .num 5)]),
        ⟨"n", [.str "a", .str "x"], [⟨some "k", .num 1, .number⟩]⟩,
        true, [("k", "2")], [], []⟩).selected.text.headD default).value = JValue.num 2 ∧
    JValue.num 2 ≠ JValue.num 1 :=
  ⟨rfl, rfl, by rfl, by rfl,
    fun h => by injection h with h'; exact absurd h' (by decide)⟩

/-- C1 amended: for every commit in which address resolution throws (the
walk reaches undefined or null, or the final assignment targets a
primitive or undefined — every case in which the merge phase raises
after a successful parse of the stored text), the commit aborts
atomically: the stored document text and the selected node are
unchanged, exactly one failure toast is emitted, and nothing else in the
state moves.  An invalidated path that resolves to a non-container
without throwing is outside this guarantee: it is silently skipped and
reported as success, as the counterexample shows. -/
theorem commit_resolution_failure_atomic (st : ModalState) (root : JValue)
    (hparse : parseJson st.doc = some root)
    (hres : mergeStep root st.selected st.fields = .error ()) :
    (handleSave st).doc = st.doc ∧
    (handleSave st).selected = st.selected ∧
    (handleSave st).toasts = st.toasts ++ [false] ∧
    handleSave st = { st with toasts := st.toasts ++ [false] } := by
  have hc : commitDoc st.doc st.selected st.fields = .error () := by
    unfold commitDoc
    rw [hparse]
    simp only []
    rw [hres]
  refine ⟨?_, ?_, ?_, ?_⟩ <;> simp [handleSave, hc]

/-- C1 amended witness: a commit over the document text null with a
non-empty path throws during resolution and aborts atomically. -/
theorem commit_resolution_failure_atomic_witness :
    (handleSave ⟨"null", ⟨"n", [.str "x"], [⟨some "a", .num 1, .number⟩]⟩,
        true, [("a", "2")], [], []⟩).doc = "null" ∧
    (handleSave ⟨"null", ⟨"n", [.str "x"], [⟨some "a", .num 1, .number⟩]⟩,
        true, [("a", "2")], [], []⟩).selected
      = ⟨"n", [.str "x"], [⟨some "a", .num 1, .number⟩]⟩ ∧
    (handleSave ⟨"null", ⟨"n", [.str "x"], [⟨some "a", .num 1, .number⟩]⟩,
        true, [("a", "2")], [], []⟩).toasts = [false] := by
  have h := commit_resolution_failure_atomic
    ⟨"null", ⟨"n", [.str "x"], [⟨some "a", .num 1, .number⟩]⟩, true, [("a", "2")], [], []⟩
    JValue.null (by rfl) (by rfl)
  exact ⟨h.1, h.2.1, h.2.2.1⟩

/-- C2 counterexample: the deferred reconciliation does not compare the
captured identifier with the current selection.  Here the user has
selected node b after the commit of node a; when the task fires it finds
the rebuilt node a and overwrites the selection with it. -/
theorem reconcile_clobbers_later_selection :
    (fireReconcile ⟨"a", [], []⟩ [⟨"a", [], [⟨some "k", .num 9, .number⟩]⟩]
        ⟨"null", ⟨"b", [], []⟩, false, [], [], []⟩).selected
      = ⟨"a", [], [⟨some "k", .num 9, .number⟩]⟩ ∧
    (⟨"b", [], []⟩ : NodeData).id ≠ (⟨"a", [], []⟩ : NodeData).id ∧
    (⟨"a", [], [⟨some "k", .num 9, .number⟩]⟩ : NodeData) ≠ (⟨"b", [], []⟩ : NodeData) := by
  refine ⟨by rfl, by decide, ?_⟩
  intro h
  exact absurd (congrArg NodeData.id h) (by decide)

/-- C2 amended: before replacing the selected node the deferred
reconciliation checks only that the captured stable identifier resolves
in the rebuilt collection; when a node with that identifier exists it
replaces the current selection unconditionally (even a different, later
selection), and otherwise it leaves the state unchanged. -/
theorem reconcile_checks_existence_only (captured : NodeData) (nodes : List NodeData)
    (st : ModalState) :
    (∀ n : NodeData, nodes.find? (fun m => m.id == captured.id) = some n →
        fireReconcile captured nodes st = { st with selected := n }) ∧
    (nodes.find? (fun m => m.id == captured.id) = none →
        fireReconcile captured nodes st = st) := by
  constructor
  · intro n hn
    unfold fireReconcile
    rw [hn]
  · intro hn
    unfold fireReconcile
    rw [hn]

/-- C2 amended witness: both branches of the existence-only check at
concrete inputs. -/
theorem reconcile_checks_existence_only_witness :
    fireReconcile ⟨"a", [], []⟩ [⟨"a", [], []⟩] ⟨"d", ⟨"b", [], []⟩, false, [], [], []⟩
      = { (⟨"d", ⟨"b", [], []⟩, false, [], [], []⟩ : ModalState) with
          selected := ⟨"a", [], []⟩ } ∧
    fireReconcile ⟨"a", [], []⟩ [] ⟨"d", ⟨"b", [], []⟩, false, [], [], []⟩
      = ⟨"d", ⟨"b", [], []⟩, false, [], [], []⟩ := by
  constructor
  · exact (reconcile_checks_existence_only ⟨"a", [], []⟩ [⟨"a", [], []⟩]
      ⟨"d", ⟨"b", [], []⟩, false, [], [], []⟩).1 ⟨"a", [], []⟩ (by rfl)
  · exact (reconcile_checks_existence_only ⟨"a", [], []⟩ []
      ⟨"d", ⟨"b", [], []⟩, false, [], [], []⟩).2 (by rfl)

/-- C8: render is total (a total Lean function by construction), the
empty path renders as the single root symbol, the example path renders
with the string segment quoted and the numeric segment bare, and every
non-empty path renders as the bracketed-segment address built from the
claim-side segment rendering. -/
theorem render_total_bracketed :
    jsonPathToString [] = "$" ∧
    jsonPathToString [JSeg.str "customer", JSeg.num 0] = "$[\"customer\"][0]" ∧
    ∀ path : List JSeg, path ≠ [] →
      jsonPathToString path
        = "$[" ++ String.intercalate "][" (path.map renderSegSpec) ++ "]" := by
  refine ⟨rfl, by rfl, ?_⟩
  intro path hne
  cases path with
  | nil => exact absurd rfl hne
  | cons s rest =>
      show "$[" ++ String.intercalate "]["
          ((s :: rest).map (fun seg =>
            match seg with
            | .num n => toString n
            | .str s => "\"" ++ s ++ "\"")) ++ "]" = _
      rw [show ((s :: rest).map (fun seg =>
            match seg with
            | .num n => toString n
            | .str s => "\"" ++ s ++ "\"")) = (s :: rest).map renderSegSpec from by
          apply List.map_congr_left
          intro a _
          cases a <;> rfl]

/-- C8 witness: the general bracketed form applied at a concrete
non-empty path. -/
theorem render_total_bracketed_witness :
    jsonPathToString [JSeg.num 3]
      = "$[" ++ String.intercalate "][" ([JSeg.num 3].map renderSegSpec) ++ "]" :=
  render_total_bracketed.2.2 [JSeg.num 3] (by simp)

/-- C5: normalize returns the empty-object text for the empty row list,
the bare unwrapped value for a single keyless row, and otherwise the
serialization of the object keyed by each row's key that omits rows of
type array or object. -/
theorem normalize_three_cases :
    normalizeNodeData [] = "{}" ∧
    (∀ r : Row, keyTruthy r.key = false →
        normalizeNodeData [r] = jsToString r.value) ∧
    (∀ rows : List Row, rows ≠ [] → singleKeyless rows = false →
        normalizeNodeData rows = stringify2 (.obj (specRowObject rows))) := by
  refine ⟨rfl, ?_, ?_⟩
  · intro r h
    unfold normalizeNodeData
    rw [show ([r] : List Row).isEmpty = false from rfl]
    rw [show singleKeyless [r] = true from by simp [singleKeyless, h]]
    rfl
  · intro rows hne hsk
    unfold normalizeNodeData
    rw [show rows.isEmpty = false from by
      cases rows with
      | nil => exact absurd rfl hne
      | cons a l => rfl]
    rw [hsk]
    show stringify2 (.obj (rows.foldl
        (fun acc r => if eligRow r then alSet acc (r.key.getD "") r.value else acc) []))
      = stringify2 (.obj (specRowObject rows))
    rw [show (fun (acc : List (String × JValue)) (r : Row) =>
          if eligRow r then alSet acc (r.key.getD "") r.value else acc)
        = (fun acc r =>
          if r.ty != RowType.array && r.ty != RowType.object && keyTruthy r.key then
            alSet acc (r.key.getD "") r.value
          else acc) from by
        funext acc r
        rw [eligRow]]
    rfl

/-- C5 witness: the bare-value case at a keyless number row and the
object case at a mixed row list that omits the array-typed row. -/
theorem normalize_three_cases_witness :
    normalizeNodeData [⟨none, .num 42, .number⟩] = jsToString (JValue.num 42) ∧
    normalizeNodeData
        [⟨some "a", .num 1, .number⟩, ⟨some "b", .arr [.num 1, .num 2], .array⟩]
      = stringify2 (.obj (specRowObject
          [⟨some "a", .num 1, .number⟩, ⟨some "b", .arr [.num 1, .num 2], .array⟩])) := by
  constructor
  · exact normalize_three_cases.2.1 ⟨none, .num 42, .number⟩ (by rfl)
  · exact normalize_three_cases.2.2 _ (by simp) (by rfl)

/-- C6: a commit that succeeds leaves edit mode (Editing to Viewing); a
commit that fails stays in edit mode with the edit buffer unchanged for
retry. -/
theorem commit_editing_transitions (st : ModalState) (h : st.editing = true) :
    (∀ d : String, commitDoc st.doc st.selected st.fields = .ok d →
        (handleSave st).editing = false) ∧
    (commitDoc st.doc st.selected st.fields = .error () →
        (handleSave st).editing = true ∧ (handleSave st).fields = st.fields) := by
  constructor
  · intro d hd
    simp [handleSave, hd]
  · intro he
    simp [handleSave, he, h]

/-- C6 witness: a successful commit at a concrete state ends edit mode;
a failing commit at a concrete state stays in edit mode with the buffer
intact. -/
theorem commit_editing_transitions_witness :
    (handleSave ⟨stringify2 (.obj [("x", .num 1)]),
        ⟨"n", [], [⟨some "x", .num 1, .number⟩]⟩, true, [("x", "2")], [], []⟩).editing
      = false ∧
    (handleSave ⟨"null", ⟨"n", [.str "x"], [⟨some "a", .num 1, .number⟩]⟩,
        true, [("a", "2")], [], []⟩).editing = true ∧
    (handleSave ⟨"null", ⟨"n", [.str "x"], [⟨some "a", .num 1, .number⟩]⟩,
        true, [("a", "2")], [], []⟩).fields = [("a", "2")] := by
  refine ⟨?_, ?_⟩
  · exact (commit_editing_transitions
      ⟨stringify2 (.obj [("x", .num 1)]),
        ⟨"n", [], [⟨some "x", .num 1, .number⟩]⟩, true, [("x", "2")], [], []⟩ rfl).1
      (stringify2 (.obj [("x", .num 2)])) (by rfl)
  · exact (commit_editing_transitions
      ⟨"null", ⟨"n", [.str "x"], [⟨some "a", .num 1, .number⟩]⟩,
        true, [("a", "2")], [], []⟩ rfl).2 (by rfl)

/-- C7: when the stable identifier of the committed node is absent from
the rebuilt node collection at the moment the deferred reconciliation
fires, the selected node remains exactly the optimistic snapshot
installed at commit time; it is never cleared. -/
theorem reconcile_miss_keeps_optimistic (st : ModalState) (d : String)
    (nodes : List NodeData)
    (hok : commitDoc st.doc st.selected st.fields = .ok d)
    (habsent : ∀ n ∈ nodes, n.id ≠ st.selected.id) :
    (fireReconcile st.selected nodes (handleSave st)).selected
      = optimisticNode st.selected st.fields := by
  have hfind : nodes.find? (fun m => m.id == st.selected.id) = none := by
    rw [List.find?_eq_none]
    intro n hn
    simpa using habsent n hn
  unfold fireReconcile
  rw [hfind]
  simp [handleSave, hok]

/-- C7 witness: a concrete successful commit followed by a
reconciliation over a rebuilt collection without the node's identifier
keeps the optimistic snapshot selected. -/
theorem reconcile_miss_keeps_optimistic_witness :
    (fireReconcile
        (⟨"n", [], [⟨some "x", .num 1, .number⟩]⟩ : NodeData)
        [⟨"z", [], []⟩]
        (handleSave ⟨stringify2 (.obj [("x", .num 1)]),
          ⟨"n", [], [⟨some "x", .num 1, .number⟩]⟩, true, [("x", "2")], [], []⟩)).selected
      = optimisticNode ⟨"n", [], [⟨some "x", .num 1, .number⟩]⟩ [("x", "2")] :=
  reconcile_miss_keeps_optimistic
    ⟨stringify2 (.obj [("x", .num 1)]),
      ⟨"n", [], [⟨some "x", .num 1, .number⟩]⟩, true, [("x", "2")], [], []⟩
    (stringify2 (.obj [("x", .num 2)])) [⟨"z", [], []⟩] (by rfl)
    (by
      intro n hn
      simp only [List.mem_singleton] at hn
      rw [hn]
      decide)

/-- C9: a commit on an object-shaped node with a non-empty path whose
resolved target is not a non-null object writes nothing into the
document (the merged clone equals the parsed root), yet still reports
success, exits edit mode, installs the optimistic node and replaces the
stored text with the re-serialized (unchanged) root — the displayed node
can diverge from the stored document without any failure signal. -/
theorem nonobject_target_silent_success (st : ModalState) (root parent : JValue)
    (pre : List JSeg) (lk : JSeg)
    (hpath : st.selected.path = pre ++ [lk])
    (hscalar : isScalarNode st.selected = false)
    (hparse : parseJson st.doc = some root)
    (hwalk : walkSegs (some root) pre = .ok (some parent))
    (hnn : parent ≠ .null) (hnu : parent ≠ .undefined)
    (htarget : ∀ t, getMember parent (segToString lk) = some t → isObjLike t = false) :
    mergeStep root st.selected st.fields = .ok root ∧
    handleSave st = { st with
      doc := stringify2 root,
      selected := optimisticNode st.selected st.fields,
      editing := false,
      toasts := st.toasts ++ [true],
      pending := st.pending ++ [st.selected] } := by
  have hop : objectOp (segToString lk) st.fields (some parent) = .ok none :=
    objectOp_skip _ _ _ hnn hnu htarget
  have hupd : updAt (some root) pre (objectOp (segToString lk) st.fields)
      = .ok (some root) :=
    updAt_skip pre (some root) (some parent) _ hwalk hop
  have hmerge : mergeStep root st.selected st.fields = .ok root := by
    rw [mergeStep_nonempty root st.selected st.fields pre lk hpath]
    rw [if_neg (by simp [hscalar])]
    rw [hupd]
    rfl
  refine ⟨hmerge, ?_⟩
  have hc : commitDoc st.doc st.selected st.fields = .ok (stringify2 root) := by
    unfold commitDoc
    rw [hparse]
    simp only []
    rw [hmerge]
  simp [handleSave, hc]

/-- C9 witness: editing fields of a node addressed at a number-valued
member writes nothing, yet the commit succeeds and installs the
optimistic node. -/
theorem nonobject_target_silent_success_witness :
    mergeStep (.obj [("a", .num 1)])
        (⟨"n", [.str "a"], [⟨some "x", .num 1, .number⟩, ⟨some "y", .num 2, .number⟩]⟩)
        [("x", "9")] = .ok (.obj [("a", .num 1)]) ∧
    handleSave ⟨stringify2 (.obj [("a", .num 1)]),
        ⟨"n", [.str "a"], [⟨some "x", .num 1, .number⟩, ⟨some "y", .num 2, .number⟩]⟩,
        true, [("x", "9")], [], []⟩
      = { (⟨stringify2 (.obj [("a", .num 1)]),
            ⟨"n", [.str "a"], [⟨some "x", .num 1, .number⟩, ⟨some "y", .num 2, .number⟩]⟩,
            true, [("x", "9")], [], []⟩ : ModalState) with
          doc := stringify2 (JValue.obj [("a", .num 1)]),
          selected := optimisticNode
            ⟨"n", [.str "a"], [⟨some "x", .num 1, .number⟩, ⟨some "y", .num 2, .number⟩]⟩
            [("x", "9")],
          editing := false,
          toasts := [true],
          pending := [⟨"n", [.str "a"],
            [⟨some "x", .num 1, .number⟩, ⟨some "y", .num 2, .number⟩]⟩] } :=
  nonobject_target_silent_success
    ⟨stringify2 (.obj [("a", .num 1)]),
      ⟨"n", [.str "a"], [⟨some "x", .num 1, .number⟩, ⟨some "y", .num 2, .number⟩]⟩,
      true, [("x", "9")], [], []⟩
    (.obj [("a", .num 1)]) (.obj [("a", .num 1)]) [] (.str "a")
    rfl rfl (by rfl) (by rfl)
    (fun h => JValue.noConfusion h) (fun h => JValue.noConfusion h)
    (by
      intro t ht
      rw [show getMember (JValue.obj [("a", JValue.num 1)]) (segToString (JSeg.str "a"))
          = some (JValue.num 1) from rfl] at ht
      injection ht with ht
      rw [← ht]
      rfl)

/-- C4 counterexample: committing a single-scalar node whose path is
empty does not replace the addressed value (the document root) wholesale.
The code takes the root branch, which merges the buffer key value into
the root; on a scalar root that assignment throws, so the commit fails
and the document is unchanged, where the claim demands the root to
become the parsed buffered value. -/
theorem scalar_root_commit_not_wholesale :
    mergeStep (JValue.num 5) ⟨"n", [], [⟨none, .num 5, .number⟩]⟩ [("value", "7")]
      = .error () ∧
    (Except.error () : Except Unit JValue) ≠ .ok (JValue.num 7) ∧
    (handleSave ⟨stringify2 (JValue.num 5), ⟨"n", [], [⟨none, .num 5, .number⟩]⟩,
        true, [("value", "7")], [], []⟩).doc = stringify2 (JValue.num 5) ∧
    (handleSave ⟨stringify2 (JValue.num 5), ⟨"n", [], [⟨none, .num 5, .number⟩]⟩,
        true, [("value", "7")], [], []⟩).toasts = [false] :=
  ⟨rfl, fun h => Except.noConfusion h, by rfl, by rfl⟩

/-- C4 amended: on an object-shaped node with a non-empty path whose
addressed value is an object, every buffered pair is written into the
corresponding field as the literal parse of the text when parsing
succeeds and as the raw text string otherwise, silently and with the
commit succeeding; on a single-scalar node with a non-empty path the
addressed value is replaced wholesale by the parsed-or-fallback value of
the sole buffered entry; on a single-scalar node with an empty path the
sole entry is instead merged into the document root under the reserved
key. -/
theorem merge_write_semantics (root : JValue) (node : NodeData)
    (fields : List (String × String)) :
    (∀ (pre : List JSeg) (lk : JSeg) (parent : JValue) (tfs : List (String × JValue)),
       node.path = pre ++ [lk] →
       isScalarNode node = false →
       walkSegs (some root) pre = .ok (some parent) →
       getMember parent (segToString lk) = some (.obj tfs) →
       ∃ root', mergeStep root node fields = .ok root' ∧
         getAtPath root' node.path = some (.obj (writeFields tfs fields)) ∧
         ((fields.map Prod.fst).Nodup → ∀ k s, (k, s) ∈ fields →
            alLookup (writeFields tfs fields) k = some (parseOrFallback s) ∧
            (∀ v, parseJson s = some v → parseOrFallback s = v) ∧
            (parseJson s = none → parseOrFallback s = .str s))) ∧
    (∀ (pre : List JSeg) (lk : JSeg) (parent told parent' : JValue) (s0 : String),
       node.path = pre ++ [lk] →
       isScalarNode node = true →
       fields = [("value", s0)] →
       walkSegs (some root) pre = .ok (some parent) →
       getMember parent (segToString lk) = some told →
       jsAssign parent (segToString lk) (parseOrFallback s0) = .ok parent' →
       ∃ root', mergeStep root node fields = .ok root' ∧
         getAtPath root' node.path = some (parseOrFallback s0)) ∧
    (node.path = [] → ∀ s0 : String, fields = [("value", s0)] →
       mergeStep root node fields = jsAssign root "value" (parseOrFallback s0)) := by
  refine ⟨?_, ?_, ?_⟩
  · intro pre lk parent tfs hpath hscalar hwalk htarget
    obtain ⟨parent', hassign⟩ := assign_ok_of_member_objLike parent (segToString lk)
      (.obj tfs) (.obj (writeFields tfs fields)) htarget rfl
    have hop : objectOp (segToString lk) fields (some parent) = .ok (some parent') :=
      objectOp_write _ _ _ _ _ htarget hassign
    obtain ⟨hpobj, hpobj'⟩ := jsAssign_ok_objLike hassign
    obtain ⟨root', hmer, hget⟩ := mergeStep_write root node fields pre lk parent parent'
      hpath hwalk hpobj hpobj' (by rw [if_neg (by simp [hscalar])]; exact hop)
    refine ⟨root', hmer, ?_, ?_⟩
    · rw [hget]
      exact getMember_assign htarget hassign
    · intro hnodup k s hmem
      exact ⟨writeFields_lookup fields tfs k s hnodup hmem,
        fun v hv => parseOrFallback_parsed hv,
        fun hn => parseOrFallback_raw hn⟩
  · intro pre lk parent told parent' s0 hpath hscalar hfields hwalk htold hassign
    have hval : scalarNewVal fields = parseOrFallback s0 := by
      rw [hfields]
      rfl
    have hop : scalarOp (segToString lk) (scalarNewVal fields) (some parent)
        = .ok (some parent') := by
      rw [hval]
      exact scalarOp_write _ _ _ _ hassign
    obtain ⟨hpobj, hpobj'⟩ := jsAssign_ok_objLike hassign
    obtain ⟨root', hmer, hget⟩ := mergeStep_write root node fields pre lk parent parent'
      hpath hwalk hpobj hpobj' (by rw [if_pos hscalar]; exact hop)
    refine ⟨root', hmer, ?_⟩
    rw [hget]
    exact getMember_assign htold hassign
  · intro hpath s0 hfields
    unfold mergeStep
    rw [hpath, hfields]
    exact foldlM_single root "value" s0

/-- C4 amended witness: the object branch writing a parsed boolean and a
raw string, the scalar branch replacing an addressed member wholesale,
and the empty-path branch merging the sole entry into the root. -/
theorem merge_write_semantics_witness :
    (∃ root', mergeStep (.obj [("o", .obj [("a", .num 1)])])
        ⟨"n", [.str "o"], [⟨some "a", .num 1, .number⟩, ⟨some "b", .str "w", .string⟩]⟩
        [("a", "true"), ("b", "zz")] = .ok root' ∧
      getAtPath root' (⟨"n", [.str "o"],
          [⟨some "a", .num 1, .number⟩, ⟨some "b", .str "w", .string⟩]⟩ : NodeData).path
        = some (.obj (writeFields [("a", .num 1)] [("a", "true"), ("b", "zz")])) ∧
      (((([("a", "true"), ("b", "zz")] : List (String × String)).map Prod.fst).Nodup) →
        ∀ k s, (k, s) ∈ ([("a", "true"), ("b", "zz")] : List (String × String)) →
          alLookup (writeFields [("a", .num 1)] [("a", "true"), ("b", "zz")]) k
            = some (parseOrFallback s) ∧
          (∀ v, parseJson s = some v → parseOrFallback s = v) ∧
          (parseJson s = none → parseOrFallback s = .str s))) ∧
    (∃ root', mergeStep (.obj [("p", .num 1)])
        ⟨"m", [.str "p"], [⟨none, .num 1, .number⟩]⟩ [("value", "27")] = .ok root' ∧
      getAtPath root' (⟨"m", [.str "p"], [⟨none, .num 1, .number⟩]⟩ : NodeData).path
        = some (parseOrFallback "27")) ∧
    mergeStep (.obj []) ⟨"r", [], [⟨none, .num 5, .number⟩]⟩ [("value", "7")]
      = jsAssign (.obj []) "value" (parseOrFallback "7") := by
  refine ⟨?_, ?_, ?_⟩
  · exact (merge_write_semantics (.obj [("o", .obj [("a", .num 1)])])
      ⟨"n", [.str "o"], [⟨some "a", .num 1, .number⟩, ⟨some "b", .str "w", .string⟩]⟩
      [("a", "true"), ("b", "zz")]).1 [] (.str "o") (.obj [("o", .obj [("a", .num 1)])])
      [("a", .num 1)] rfl rfl (by rfl) (by rfl)
  · exact (merge_write_semantics (.obj [("p", .num 1)])
      ⟨"m", [.str "p"], [⟨none, .num 1, .number⟩]⟩ [("value", "27")]).2.1
      [] (.str "p") (.obj [("p", .num 1)]) (.num 1) (.obj [("p", .num 27)]) "27"
      rfl rfl rfl (by rfl) (by rfl) (by rfl)
  · exact (merge_write_semantics (.obj []) ⟨"r", [], [⟨none, .num 5, .number⟩]⟩
      [("value", "7")]).2.2 rfl "7" rfl

/-- C3 counterexample: a string row whose text is literal-parseable does
not round-trip.  The row holds the string value 1; seeding stores the
text 1, which is literal-parseable, and the unmodified commit stores the
number 1, changing the value's type. -/
theorem roundtrip_retypes_parseable_string :
    initEditedFields [⟨some "a", .str "1", .string⟩] = [("a", "1")] ∧
    parseJson "1" = some (.num 1) ∧
    mergeStep (.obj [("o", .obj [("a", .str "1")])])
        ⟨"n", [.str "o"], [⟨some "a", .str "1", .string⟩]⟩
        (initEditedFields [⟨some "a", .str "1", .string⟩])
      = .ok (.obj [("o", .obj [("a", .num 1)])]) ∧
    JValue.num 1 ≠ JValue.str "1" :=
  ⟨rfl, rfl, by rfl, fun h => JValue.noConfusion h⟩

/-- C3 amended: seeding followed by an unmodified commit reproduces the
original row values (and hence their types) for every node each of whose
buffered texts literal-parses back to the row's original value — true
for number and boolean rows, but not for string rows whose text happens
to be literal-parseable, since those are re-typed by the parse.  The
parse-back hypothesis ranges over the buffered rows only (the eligible
rows for object-shaped nodes, the sole keyless row for scalar nodes);
container rows, which are never buffered, are unconstrained.  Stated
for object-shaped nodes writing into an addressed object and for
single-scalar nodes replacing an addressed member. -/
theorem seed_commit_roundtrip (root : JValue) (node : NodeData) :
    (∀ (pre : List JSeg) (lk : JSeg) (parent : JValue) (tfs : List (String × JValue)),
       node.path = pre ++ [lk] →
       isScalarNode node = false →
       walkSegs (some root) pre = .ok (some parent) →
       getMember parent (segToString lk) = some (.obj tfs) →
       ((node.text.filter eligRow).map (fun r => r.key.getD "")).Nodup →
       (∀ r ∈ node.text, eligRow r = true →
          parseJson (seedString r.value) = some r.value) →
       ∃ root', mergeStep root node (initEditedFields node.text) = .ok root' ∧
         getAtPath root' node.path
           = some (.obj (writeFields tfs (initEditedFields node.text))) ∧
         ∀ r ∈ node.text, eligRow r = true →
           alLookup (writeFields tfs (initEditedFields node.text)) (r.key.getD "")
             = some r.value) ∧
    (∀ (pre : List JSeg) (lk : JSeg) (parent told parent' : JValue) (r : Row),
       node.path = pre ++ [lk] →
       node.text = [r] →
       keyTruthy r.key = false →
       parseJson (seedString r.value) = some r.value →
       walkSegs (some root) pre = .ok (some parent) →
       getMember parent (segToString lk) = some told →
       jsAssign parent (segToString lk) r.value = .ok parent' →
       ∃ root', mergeStep root node (initEditedFields node.text) = .ok root' ∧
         getAtPath root' node.path = some r.value) := by
  constructor
  · intro pre lk parent tfs hpath hscalar hwalk htarget hnodup hback
    obtain ⟨parent', hassign⟩ := assign_ok_of_member_objLike parent (segToString lk)
      (.obj tfs) (.obj (writeFields tfs (initEditedFields node.text))) htarget rfl
    have hop : objectOp (segToString lk) (initEditedFields node.text) (some parent)
        = .ok (some parent') :=
      objectOp_write _ _ _ _ _ htarget hassign
    obtain ⟨hpobj, hpobj'⟩ := jsAssign_ok_objLike hassign
    obtain ⟨root', hmer, hget⟩ := mergeStep_write root node (initEditedFields node.text)
      pre lk parent parent' hpath hwalk hpobj hpobj'
      (by rw [if_neg (by simp [hscalar])]; exact hop)
    refine ⟨root', hmer, ?_, ?_⟩
    · rw [hget]
      exact getMember_assign htarget hassign
    · intro r hmem helig
      have hsk : singleKeyless node.text = false := hscalar
      have hbuf : initEditedFields node.text = node.text.foldl seedField [] := by
        unfold initEditedFields
        rw [hsk]
        rfl
      have hlook : alLookup (initEditedFields node.text) (r.key.getD "")
          = some (seedString r.value) := by
        rw [hbuf]
        exact seedFoldl_lookup node.text [] r (r.key.getD "") hnodup hmem helig rfl
      have hbmem : (r.key.getD "", seedString r.value) ∈ initEditedFields node.text :=
        alLookup_mem hlook
      rw [writeFields_lookup (initEditedFields node.text) tfs _ _
        (initEditedFields_keys_nodup node.text) hbmem]
      rw [parseOrFallback_parsed (hback r hmem helig)]
  · intro pre lk parent told parent' r hpath htext hkey hback hwalk htold hassign
    have hsk : singleKeyless node.text = true := by
      rw [htext]
      simp [singleKeyless, hkey]
    have hbuf : initEditedFields node.text = [("value", seedString r.value)] := by
      unfold initEditedFields
      rw [hsk, htext]
      rfl
    have hval : scalarNewVal (initEditedFields node.text) = r.value := by
      rw [hbuf]
      show parseOrFallback (seedString r.value) = r.value
      exact parseOrFallback_parsed hback
    have hop : scalarOp (segToString lk) (scalarNewVal (initEditedFields node.text))
        (some parent) = .ok (some parent') := by
      rw [hval]
      exact scalarOp_write _ _ _ _ hassign
    obtain ⟨hpobj, hpobj'⟩ := jsAssign_ok_objLike hassign
    have hscalar : isScalarNode node = true := hsk
    obtain ⟨root', hmer, hget⟩ := mergeStep_write root node (initEditedFields node.text)
      pre lk parent parent' hpath hwalk hpobj hpobj'
      (by rw [if_pos hscalar]; exact hop)
    refine ⟨root', hmer, ?_⟩
    rw [hget]
    exact getMember_assign htold hassign

/-- C3 amended witness: an object node holding a number row, a boolean
row and an array row (the array row is never buffered and needs no
parse-back), and a boolean scalar node; all buffered texts parse back to
the original values. -/
theorem seed_commit_roundtrip_witness :
    (∃ root', mergeStep (.obj [("o", .obj [("a", .num 42)])])
        ⟨"n", [.str "o"], [⟨some "a", .num 42, .number⟩, ⟨some "b", .bool true, .boolean⟩,
          ⟨some "c", .arr [.num 1], .array⟩]⟩
        (initEditedFields
          [⟨some "a", .num 42, .number⟩, ⟨some "b", .bool true, .boolean⟩,
            ⟨some "c", .arr [.num 1], .array⟩]) = .ok root' ∧
      getAtPath root' (⟨"n", [.str "o"],
          [⟨some "a", .num 42, .number⟩, ⟨some "b", .bool true, .boolean⟩,
            ⟨some "c", .arr [.num 1], .array⟩]⟩ : NodeData).path
        = some (.obj (writeFields [("a", .num 42)]
            (initEditedFields
              [⟨some "a", .num 42, .number⟩, ⟨some "b", .bool true, .boolean⟩,
                ⟨some "c", .arr [.num 1], .array⟩]))) ∧
      ∀ r ∈ ([⟨some "a", .num 42, .number⟩, ⟨some "b", .bool true, .boolean⟩,
          ⟨some "c", .arr [.num 1], .array⟩] : List Row),
        eligRow r = true →
          alLookup (writeFields [("a", .num 42)]
              (initEditedFields
                [⟨some "a", .num 42, .number⟩, ⟨some "b", .bool true, .boolean⟩,
                  ⟨some "c", .arr [.num 1], .array⟩]))
            (r.key.getD "") = some r.value) ∧
    (∃ root', mergeStep (.obj [("p", .bool true)])
        ⟨"m", [.str "p"], [⟨none, .bool true, .boolean⟩]⟩
        (initEditedFields [⟨none, .bool true, .boolean⟩]) = .ok root' ∧
      getAtPath root' (⟨"m", [.str "p"], [⟨none, .bool true, .boolean⟩]⟩ : NodeData).path
        = some (⟨none, .bool true, .boolean⟩ : Row).value) := by
  constructor
  · exact (seed_commit_roundtrip (.obj [("o", .obj [("a", .num 42)])])
      ⟨"n", [.str "o"],
        [⟨some "a", .num 42, .number⟩, ⟨some "b", .bool true, .boolean⟩,
          ⟨some "c", .arr [.num 1], .array⟩]⟩).1
      [] (.str "o") (.obj [("o", .obj [("a", .num 42)])]) [("a", .num 42)]
      rfl rfl (by rfl) (by rfl)
      (by
        rw [show List.filter eligRow
              [(⟨some "a", .num 42, .number⟩ : Row), ⟨some "b", .bool true, .boolean⟩,
                ⟨some "c", .arr [.num 1], .array⟩]
            = [⟨some "a", .num 42, .number⟩, ⟨some "b", .bool true, .boolean⟩] from rfl]
        rw [show List.map (fun (r : Row) => r.key.getD "")
              [(⟨some "a", .num 42, .number⟩ : Row), ⟨some "b", .bool true, .boolean⟩]
            = ["a", "b"] from rfl]
        simp)
      (by
        intro r hr helig
        simp only [List.mem_cons, List.not_mem_nil, or_false] at hr
        rcases hr with h | h | h <;> rw [h] at helig ⊢
        · rfl
        · rfl
        · exact absurd helig (by decide))
  · exact (seed_commit_roundtrip (.obj [("p", .bool true)])
      ⟨"m", [.str "p"], [⟨none, .bool true, .boolean⟩]⟩).2
      [] (.str "p") (.obj [("p", .bool true)]) (.bool true) (.obj [("p", .bool true)])
      ⟨none, .bool true, .boolean⟩ rfl rfl rfl (by rfl) (by rfl) (by rfl) (by rfl)

/-- C10: a null (or undefined) row value seeds the edit buffer with the
empty string, not the text null; the empty string fails literal parsing
and falls back to raw text, so an unmodified commit of such a field
stores the empty string as a string value in the document. -/
theorem null_value_seeds_empty_string :
    (∀ v : JValue, v = .null ∨ v = .undefined → seedString v = "") ∧
    parseOrFallback "" = .str "" ∧
    (∀ (text : List Row) (r : Row),
       singleKeyless text = false →
       ((text.filter eligRow).map (fun r => r.key.getD "")).Nodup →
       r ∈ text → eligRow r = true → r.value = .null →
       alLookup (initEditedFields text) (r.key.getD "") = some "") ∧
    (∀ (root : JValue) (node : NodeData) (pre : List JSeg) (lk : JSeg)
       (parent : JValue) (tfs : List (String × JValue)) (r : Row),
       node.path = pre ++ [lk] →
       isScalarNode node = false →
       walkSegs (some root) pre = .ok (some parent) →
       getMember parent (segToString lk) = some (.obj tfs) →
       ((node.text.filter eligRow).map (fun r => r.key.getD "")).Nodup →
       r ∈ node.text → eligRow r = true → r.value = .null →
       ∃ root', mergeStep root node (initEditedFields node.text) = .ok root' ∧
         getAtPath root' node.path
           = some (.obj (writeFields tfs (initEditedFields node.text))) ∧
         alLookup (writeFields tfs (initEditedFields node.text)) (r.key.getD "")
           = some (.str "")) := by
  refine ⟨?_, by rfl, ?_, ?_⟩
  · intro v hv
    rcases hv with h | h <;> rw [h] <;> rfl
  · intro text r hsk hnodup hmem helig hval
    have hbuf : initEditedFields text = text.foldl seedField [] := by
      unfold initEditedFields
      rw [hsk]
      rfl
    rw [hbuf, seedFoldl_lookup text [] r (r.key.getD "") hnodup hmem helig rfl, hval]
    rfl
  · intro root node pre lk parent tfs r hpath hscalar hwalk htarget hnodup hmem helig hval
    obtain ⟨parent', hassign⟩ := assign_ok_of_member_objLike parent (segToString lk)
      (.obj tfs) (.obj (writeFields tfs (initEditedFields node.text))) htarget rfl
    have hop : objectOp (segToString lk) (initEditedFields node.text) (some parent)
        = .ok (some parent') :=
      objectOp_write _ _ _ _ _ htarget hassign
    obtain ⟨hpobj, hpobj'⟩ := jsAssign_ok_objLike hassign
    obtain ⟨root', hmer, hget⟩ := mergeStep_write root node (initEditedFields node.text)
      pre lk parent parent' hpath hwalk hpobj hpobj'
      (by rw [if_neg (by simp [hscalar])]; exact hop)
    refine ⟨root', hmer, ?_, ?_⟩
    · rw [hget]
      exact getMember_assign htarget hassign
    · have hsk : singleKeyless node.text = false := hscalar
      have hbuf : initEditedFields node.text = node.text.foldl seedField [] := by
        unfold initEditedFields
        rw [hsk]
        rfl
      have hlook : alLookup (initEditedFields node.text) (r.key.getD "")
          = some (seedString r.value) := by
        rw [hbuf]
        exact seedFoldl_lookup node.text [] r (r.key.getD "") hnodup hmem helig rfl
      rw [hval] at hlook
      have hbmem : (r.key.getD "", "") ∈ initEditedFields node.text :=
        alLookup_mem (by rw [hlook]; rfl)
      rw [writeFields_lookup (initEditedFields node.text) tfs _ _
        (initEditedFields_keys_nodup node.text) hbmem]
      rfl

/-- C10 witness: a null-valued row seeds the empty string and its
unmodified commit stores the empty string as a string value. -/
theorem null_value_seeds_empty_string_witness :
    seedString JValue.null = "" ∧
    parseOrFallback "" = .str "" ∧
    alLookup (initEditedFields [⟨some "a", .null, .null⟩, ⟨some "b", .num 2, .number⟩])
      ((⟨some "a", .null, .null⟩ : Row).key.getD "") = some "" ∧
    (∃ root', mergeStep (.obj [("o", .obj [("a", .null)])])
        ⟨"n", [.str "o"], [⟨some "a", .null, .null⟩]⟩
        (initEditedFields [⟨some "a", .null, .null⟩]) = .ok root' ∧
      getAtPath root' (⟨"n", [.str "o"], [⟨some "a", .null, .null⟩]⟩ : NodeData).path
        = some (.obj (writeFields [("a", .null)]
            (initEditedFields [⟨some "a", .null, .null⟩]))) ∧
      alLookup (writeFields [("a", .null)] (initEditedFields [⟨some "a", .null, .null⟩]))
        ((⟨some "a", .null, .null⟩ : Row).key.getD "") = some (.str "")) := by
  refine ⟨?_, ?_, ?_, ?_⟩
  · exact null_value_seeds_empty_string.1 JValue.null (Or.inl rfl)
  · exact null_value_seeds_empty_string.2.1
  · exact null_value_seeds_empty_string.2.2.1
      [⟨some "a", .null, .null⟩, ⟨some "b", .num 2, .number⟩] ⟨some "a", .null, .null⟩
      rfl
      (by
        rw [show List.filter eligRow
              [(⟨some "a", .null, .null⟩ : Row), ⟨some "b", .num 2, .number⟩]
            = [⟨some "a", .null, .null⟩, ⟨some "b", .num 2, .number⟩] from rfl]
        rw [show List.map (fun (r : Row) => r.key.getD "")
              [(⟨some "a", .null, .null⟩ : Row), ⟨some "b", .num 2, .number⟩]
            = ["a", "b"] from rfl]
        simp)
      (by simp) rfl rfl
  · exact null_value_seeds_empty_string.2.2.2
      (.obj [("o", .obj [("a", .null)])]) ⟨"n", [.str "o"], [⟨some "a", .null, .null⟩]⟩
      [] (.str "o") (.obj [("o", .obj [("a", .null)])]) [("a", .null)]
      ⟨some "a", .null, .null⟩ rfl rfl (by rfl) (by rfl)
      (by
        rw [show List.filter eligRow [(⟨some "a", .null, .null⟩ : Row)]
            = [⟨some "a", .null, .null⟩] from rfl]
        rw [show List.map (fun (r : Row) => r.key.getD "")
              [(⟨some "a", .null, .null⟩ : Row)] = ["a"] from rfl]
        simp)
      (by simp) rfl rfl

end NodeModal
